import Mathlib

/-!
# Cursor binding of unqlitego (`cursor.go`)

A shallow embedding of the Go type `Cursor` and of its methods, together with
the properties of the cursor contract that can be settled on it.

`cursor.go` is binding code: every method hands its arguments to one primitive
of the UnQLite C library through cgo and turns the returned status into a Go
`error`.  The embedding keeps that shape.

* A C primitive invocation is a value of `Call`; what the library answers is a
  `Reply`.  The library itself is an `Engine σ`, a transition function on an
  engine state `σ`.  Theorems about the binding code quantify over every
  engine.
* A `World σ` holds the engine state and the trace of the invocations made so
  far with their replies, so that "which primitive was invoked, with which
  arguments, how many times" is a statement about `World.trace`.
* Go run-time panics (`cr.db.conn` with a nil `db`, `&key[0]` on an empty
  slice, `make` with a negative or too large length) are an explicit outcome,
  `Outcome.panicked`.
* Go `int` is taken to be 64 bits wide and C `int` 32 bits wide, as on every
  64-bit cgo target; `C_int` is the truncating conversion `C.int(x)`.

The C library and its header are not among the sources.  The constants of the
header are a parameter (`UnqliteH`); for the properties that speak about the
ordered key space, the library is modelled from the specification
(`specEngine`).
-/

namespace Unqlitego

/-! ## Values crossing the cgo boundary -/

/-- One octet. -/
abbrev Byte := Fin 256

/-- A sequence of octets, the content of a Go byte slice or of a C buffer. -/
abbrev Bytes := List Byte

/-- A Go value of type `[]byte`: `none` is the nil slice, `some bs` a non-nil
slice with content `bs` (possibly of length zero). -/
abbrev Slice := Option Bytes

/-- Go `len(s)`; the nil slice has length zero. -/
def Slice.len (s : Slice) : Nat := (s.getD []).length

/-- A C pointer to a library object (`*C.unqlite`, `*C.unqlite_kv_cursor`);
`none` is the null pointer. -/
abbrev Ptr := Option Nat

/-- The conversion `C.int(x)` of a Go `int`: reduction to a signed 32-bit
integer. -/
def C_int (x : Int) : Int := (x + 2147483648) % 4294967296 - 2147483648

/-- Modelled from the spec: the constants of `unqlite.h` used by `cursor.go`
(`C.UNQLITE_OK`, the three seek policies) and the status named in the comment
of `Seek` (`UNQLITE_NOTFOUND`).  The header is not among the sources, so the
values are a parameter. -/
structure UnqliteH where
  UNQLITE_OK : Int
  UNQLITE_NOTFOUND : Int
  UNQLITE_CURSOR_MATCH_EXACT : Int
  UNQLITE_CURSOR_MATCH_LE : Int
  UNQLITE_CURSOR_MATCH_GE : Int
  deriving DecidableEq, Repr

/-- The values the UnQLite header gives to the constants. -/
def unqlite_h : UnqliteH :=
  { UNQLITE_OK := 0
    UNQLITE_NOTFOUND := -6
    UNQLITE_CURSOR_MATCH_EXACT := 1
    UNQLITE_CURSOR_MATCH_LE := 2
    UNQLITE_CURSOR_MATCH_GE := 3 }

/-- Modelled from the spec: the Go type `UnQLiteError`, declared in a file
that is not among the sources.  It is the spec's `EngineError(code)`: an error
value carrying the status code of the library. -/
structure UnQLiteError where
  code : Int
  deriving DecidableEq, Repr

/-- A Go value of interface type `error`; `none` is `nil`. -/
abbrev GoError := Option UnQLiteError

/-- An invocation of a primitive of the C library, with its arguments.

For `unqlite_kv_cursor_seek`, `pKey` is the memory reachable from the key
pointer (`none` for a null pointer) and `nKey` the length argument.  For
`unqlite_kv_cursor_key` and `unqlite_kv_cursor_data`, `pBuf` is `none` for a
null buffer and `some c` for a buffer of `c` octets, and `n` is the value of
the in/out size variable at the time of the call. -/
inductive Call where
  | unqlite_kv_cursor_release (conn : Ptr) (handle : Ptr)
  | unqlite_kv_cursor_seek (handle : Ptr) (pKey : Option Bytes) (nKey : Int) (iPos : Int)
  | unqlite_kv_cursor_first_entry (handle : Ptr)
  | unqlite_kv_cursor_last_entry (handle : Ptr)
  | unqlite_kv_cursor_valid_entry (handle : Ptr)
  | unqlite_kv_cursor_next_entry (handle : Ptr)
  | unqlite_kv_cursor_prev_entry (handle : Ptr)
  | unqlite_kv_cursor_delete_entry (handle : Ptr)
  | unqlite_kv_cursor_reset (handle : Ptr)
  | unqlite_kv_cursor_key (handle : Ptr) (pBuf : Option Nat) (n : Int)
  | unqlite_kv_cursor_data (handle : Ptr) (pBuf : Option Nat) (n : Int)
  deriving DecidableEq, Repr

/-- The cursor handle a primitive invocation carries, if any. -/
def Call.handle : Call → Ptr
  | .unqlite_kv_cursor_release _ h => h
  | .unqlite_kv_cursor_seek h _ _ _ => h
  | .unqlite_kv_cursor_first_entry h => h
  | .unqlite_kv_cursor_last_entry h => h
  | .unqlite_kv_cursor_valid_entry h => h
  | .unqlite_kv_cursor_next_entry h => h
  | .unqlite_kv_cursor_prev_entry h => h
  | .unqlite_kv_cursor_delete_entry h => h
  | .unqlite_kv_cursor_reset h => h
  | .unqlite_kv_cursor_key h _ _ => h
  | .unqlite_kv_cursor_data h _ _ => h

/-- What a primitive answers: its return value `res`, the value it leaves in
the in/out size variable (`n`, read by `Key` and `Value` only) and the octets
it writes to the buffer it was given (`bytes`, likewise). -/
structure Reply where
  res : Int
  n : Int
  bytes : Bytes
  deriving DecidableEq, Repr

/-- The C library: a transition function on its own state. -/
abbrev Engine (σ : Type) := σ → Call → Reply × σ

/-- The state a method runs in: the engine state and the invocations made so
far, oldest first, each with its reply. -/
structure World (σ : Type) where
  eng : σ
  trace : List (Call × Reply)

/-- One cgo call: run the primitive and record it. -/
def cgo {σ : Type} (E : Engine σ) (c : Call) (w : World σ) : Reply × World σ :=
  ((E w.eng c).1, { eng := (E w.eng c).2, trace := w.trace ++ [(c, (E w.eng c).1)] })

/-- Reasons for which the Go run time aborts a method of `cursor.go`. -/
inductive Panic where
  | nilPointerDereference
  | indexOutOfRange
  | makesliceLenOutOfRange
  deriving DecidableEq, Repr

/-- How a Go call ends: it returns a value or it panics. -/
inductive Outcome (α : Type) where
  | returned (a : α)
  | panicked (p : Panic)
  deriving DecidableEq, Repr

/-- The content of a buffer after the library wrote `written` at its start;
the length of the buffer does not change. -/
def copyInto (buf written : Bytes) : Bytes :=
  written.take buf.length ++ buf.drop written.length

/-! ## The types of `cursor.go` -/

/-- The part of the Go type `Database` that `cursor.go` reads: the connection
pointer `conn`, null once the storage is closed. -/
structure Database where
  conn : Ptr
  deriving DecidableEq, Repr

/-- The Go type `Cursor`.  The field `db` has type `*Database`: `none` is the
nil pointer (as in the zero value `Cursor{}`), `some d` a pointer to the
database `d`, which is what `Database.Cursor` stores.  The field `handle` is
the engine-side cursor, null once released. -/
structure Cursor where
  db : Option Database
  handle : Ptr
  deriving DecidableEq, Repr

/-- The largest length `make([]byte, n)` accepts (`runtime.maxAlloc` on 64-bit
Linux targets, 2^48); beyond it `make` panics.  Below it an allocation is taken
to succeed. -/
def maxAlloc : Int := 281474976710656

/-- The common tail of the status-returning methods:
`if res != C.UNQLITE_OK { return UnQLiteError(res) }; return nil`. -/
def statusToError (H : UnqliteH) (res : Int) : GoError :=
  if res ≠ H.UNQLITE_OK then some (UnQLiteError.mk res) else none

/-! ## The methods of `Cursor` -/

/-- Method `func (cr *Cursor) Close() error`.  Returns how the call ends (the
error returned, or a panic), the cursor as the call leaves it and the world.
The condition `cr.db.conn != nil && cr.handle != nil` reads `cr.db.conn`
first, which dereferences `cr.db`: with a nil `db` the call panics before
`handle` is looked at. -/
def Cursor.Close {σ : Type} (H : UnqliteH) (E : Engine σ) (cr : Cursor) (w : World σ) :
    Outcome GoError × Cursor × World σ :=
  match cr.db with
  | none => (.panicked .nilPointerDereference, cr, w)
  | some db =>
    if db.conn ≠ none ∧ cr.handle ≠ none then
      let r := cgo E (.unqlite_kv_cursor_release db.conn cr.handle) w
      if r.1.res ≠ H.UNQLITE_OK then
        (.returned (some (UnQLiteError.mk r.1.res)), cr, r.2)
      else
        (.returned none, { cr with handle := none }, r.2)
    else
      (.returned none, cr, w)

/-- The key pointer computed at the head of the three seeks:
`var k unsafe.Pointer; if len(key) > 0 { k = unsafe.Pointer(&key[0]) }`. -/
def keyPointer (key : Slice) : Option Bytes :=
  if key.len > 0 then key else none

/-- Method `func (cr *Cursor) Seek(key []byte) error`. -/
def Cursor.Seek {σ : Type} (H : UnqliteH) (E : Engine σ) (cr : Cursor) (key : Slice)
    (w : World σ) : GoError × World σ :=
  let r := cgo E (.unqlite_kv_cursor_seek cr.handle (keyPointer key) (C_int key.len)
    H.UNQLITE_CURSOR_MATCH_EXACT) w
  (statusToError H r.1.res, r.2)

/-- Method `func (cr *Cursor) SeekLE(key []byte) error`. -/
def Cursor.SeekLE {σ : Type} (H : UnqliteH) (E : Engine σ) (cr : Cursor) (key : Slice)
    (w : World σ) : GoError × World σ :=
  let r := cgo E (.unqlite_kv_cursor_seek cr.handle (keyPointer key) (C_int key.len)
    H.UNQLITE_CURSOR_MATCH_LE) w
  (statusToError H r.1.res, r.2)

/-- Method `func (cr *Cursor) SeekGE(key []byte) error`. -/
def Cursor.SeekGE {σ : Type} (H : UnqliteH) (E : Engine σ) (cr : Cursor) (key : Slice)
    (w : World σ) : GoError × World σ :=
  let r := cgo E (.unqlite_kv_cursor_seek cr.handle (keyPointer key) (C_int key.len)
    H.UNQLITE_CURSOR_MATCH_GE) w
  (statusToError H r.1.res, r.2)

/-- Method `func (cr *Cursor) First() error`. -/
def Cursor.First {σ : Type} (H : UnqliteH) (E : Engine σ) (cr : Cursor) (w : World σ) :
    GoError × World σ :=
  let r := cgo E (.unqlite_kv_cursor_first_entry cr.handle) w
  (statusToError H r.1.res, r.2)

/-- Method `func (cr *Cursor) Last() error`. -/
def Cursor.Last {σ : Type} (H : UnqliteH) (E : Engine σ) (cr : Cursor) (w : World σ) :
    GoError × World σ :=
  let r := cgo E (.unqlite_kv_cursor_last_entry cr.handle) w
  (statusToError H r.1.res, r.2)

/-- Method `func (cr *Cursor) IsValid() bool`. -/
def Cursor.IsValid {σ : Type} (E : Engine σ) (cr : Cursor) (w : World σ) : Bool × World σ :=
  let r := cgo E (.unqlite_kv_cursor_valid_entry cr.handle) w
  (decide (r.1.res = 1), r.2)

/-- Method `func (cr *Cursor) Next() error`. -/
def Cursor.Next {σ : Type} (H : UnqliteH) (E : Engine σ) (cr : Cursor) (w : World σ) :
    GoError × World σ :=
  let r := cgo E (.unqlite_kv_cursor_next_entry cr.handle) w
  (statusToError H r.1.res, r.2)

/-- Method `func (cr *Cursor) Prev() error`. -/
def Cursor.Prev {σ : Type} (H : UnqliteH) (E : Engine σ) (cr : Cursor) (w : World σ) :
    GoError × World σ :=
  let r := cgo E (.unqlite_kv_cursor_prev_entry cr.handle) w
  (statusToError H r.1.res, r.2)

/-- Method `func (cr *Cursor) Delete() error`. -/
def Cursor.Delete {σ : Type} (H : UnqliteH) (E : Engine σ) (cr : Cursor) (w : World σ) :
    GoError × World σ :=
  let r := cgo E (.unqlite_kv_cursor_delete_entry cr.handle) w
  (statusToError H r.1.res, r.2)

/-- Method `func (cr *Cursor) Reset() error`. -/
def Cursor.Reset {σ : Type} (H : UnqliteH) (E : Engine σ) (cr : Cursor) (w : World σ) :
    GoError × World σ :=
  let r := cgo E (.unqlite_kv_cursor_reset cr.handle) w
  (statusToError H r.1.res, r.2)

/-- The body shared by `Key` and `Value`, which differ only in the primitive
they call (`prim`) and in the C type of the size variable:

```
var n C.int                                  // zero
res := prim(cr.handle, nil, &n)              // size-only phase
if res != C.UNQLITE_OK { return nil, UnQLiteError(res) }
buf = make([]byte, int(n))                   // panics when n < 0 or n > maxAlloc
res = prim(cr.handle, unsafe.Pointer(&buf[0]), &n)   // &buf[0] panics when len(buf) == 0
if res != C.UNQLITE_OK { return nil, UnQLiteError(res) }
return
```
-/
def twoPhaseRead {σ : Type} (H : UnqliteH) (E : Engine σ)
    (prim : Option Nat → Int → Call) (w : World σ) :
    Outcome (Slice × GoError) × World σ :=
  let r1 := cgo E (prim none 0) w
  if r1.1.res ≠ H.UNQLITE_OK then
    (.returned (none, some (UnQLiteError.mk r1.1.res)), r1.2)
  else if r1.1.n < 0 ∨ maxAlloc < r1.1.n then
    (.panicked .makesliceLenOutOfRange, r1.2)
  else
    let buf : Bytes := List.replicate r1.1.n.toNat 0
    if buf.length = 0 then
      (.panicked .indexOutOfRange, r1.2)
    else
      let r2 := cgo E (prim (some buf.length) r1.1.n) r1.2
      if r2.1.res ≠ H.UNQLITE_OK then
        (.returned (none, some (UnQLiteError.mk r2.1.res)), r2.2)
      else
        (.returned (some (copyInto buf r2.1.bytes), none), r2.2)

/-- Method `func (cr *Cursor) Key() (key []byte, err error)`. -/
def Cursor.Key {σ : Type} (H : UnqliteH) (E : Engine σ) (cr : Cursor) (w : World σ) :
    Outcome (Slice × GoError) × World σ :=
  twoPhaseRead H E (Call.unqlite_kv_cursor_key cr.handle) w

/-- Method `func (cr *Cursor) Value() (value []byte, err error)`. -/
def Cursor.Value {σ : Type} (H : UnqliteH) (E : Engine σ) (cr : Cursor) (w : World σ) :
    Outcome (Slice × GoError) × World σ :=
  twoPhaseRead H E (Call.unqlite_kv_cursor_data cr.handle) w

/-! ## Properties of a single method call, as predicates

The predicates below only name shapes that several methods share; they are
stated on the result of a method and on the worlds before and after it. -/

/-- The invocations a call added to the trace of `w`, given the world `w1` it
ended in. -/
def newCalls {σ : Type} (w w1 : World σ) : List (Call × Reply) :=
  w1.trace.drop w.trace.length

/-- The method result `out`, started in `w`, invoked the primitive `c` exactly
once and nothing else, and returned `nil` iff the status was `UNQLITE_OK`, and
otherwise the error carrying that very status. -/
def PropagatesVerbatim {σ : Type} (H : UnqliteH) (E : Engine σ) (w : World σ) (c : Call)
    (out : GoError × World σ) : Prop :=
  out.2.eng = (E w.eng c).2 ∧
  out.2.trace = w.trace ++ [(c, (E w.eng c).1)] ∧
  (out.1 = none ↔ (E w.eng c).1.res = H.UNQLITE_OK) ∧
  ((E w.eng c).1.res ≠ H.UNQLITE_OK → out.1 = some (UnQLiteError.mk (E w.eng c).1.res))

/-- The reply of the engine to the size-only phase of a read started in `w`. -/
def sizeReply {σ : Type} (E : Engine σ) (prim : Option Nat → Int → Call) (w : World σ) :
    Reply := (E w.eng (prim none 0)).1

/-- The world after the size-only phase of a read started in `w`. -/
def afterSize {σ : Type} (E : Engine σ) (prim : Option Nat → Int → Call) (w : World σ) :
    World σ :=
  { eng := (E w.eng (prim none 0)).2, trace := w.trace ++ [(prim none 0, sizeReply E prim w)] }

/-- The invocation of the copy phase of a read started in `w`: a buffer of the
reported size, and the reported size in the size variable. -/
def copyCall {σ : Type} (E : Engine σ) (prim : Option Nat → Int → Call) (w : World σ) :
    Call := prim (some (sizeReply E prim w).n.toNat) (sizeReply E prim w).n

/-- The reply of the engine to the copy phase of a read started in `w`, the
engine being in the state the size-only phase left. -/
def copyReply {σ : Type} (E : Engine σ) (prim : Option Nat → Int → Call) (w : World σ) :
    Reply := (E (afterSize E prim w).eng (copyCall E prim w)).1

/-- The world after both phases of a read started in `w`. -/
def afterCopy {σ : Type} (E : Engine σ) (prim : Option Nat → Int → Call) (w : World σ) :
    World σ :=
  { eng := (E (afterSize E prim w).eng (copyCall E prim w)).2,
    trace := (afterSize E prim w).trace ++ [(copyCall E prim w, copyReply E prim w)] }

/-- The copy phase of a read started in `w` is reached: the size-only phase
reported `UNQLITE_OK` and a size for which a buffer with a first element can be
made. -/
def CopyReached {σ : Type} (H : UnqliteH) (E : Engine σ) (prim : Option Nat → Int → Call)
    (w : World σ) : Prop :=
  (sizeReply E prim w).res = H.UNQLITE_OK ∧ 0 < (sizeReply E prim w).n ∧
    (sizeReply E prim w).n ≤ maxAlloc

/-- Every invocation made between `w` and `w1` carries the cursor handle `h`,
and at least one invocation was made. -/
def PassesHandle {σ : Type} (h : Ptr) (w w1 : World σ) : Prop :=
  newCalls w w1 ≠ [] ∧ ∀ x ∈ newCalls w w1, x.1.handle = h

/-! ## The key-value engine, modelled from the specification -/

/-- Modelled from the spec: the three logical states of a cursor (data model,
section 3).  `positioned i` points at the record of rank `i` in key order. -/
inductive Pos where
  | unpositioned
  | positioned (i : Nat)
  | exhausted
  deriving DecidableEq, Repr

/-- Modelled from the spec: the state of the storage engine, which is not among
the sources.  `store` is the key space, listed in storage order (ascending key
order when the state is well formed); `pos` is the iteration state of the
cursor under study. -/
structure KVState where
  store : List (Bytes × Bytes)
  pos : Pos
  deriving DecidableEq, Repr

/-- The keys of the key space, in storage order. -/
def KVState.keys (s : KVState) : List Bytes := s.store.map Prod.fst

/-- The record the cursor points at, if it is Positioned. -/
def KVState.current (s : KVState) : Option (Bytes × Bytes) :=
  match s.pos with
  | .positioned i => s.store[i]?
  | _ => none

/-- An ordered key space: keys strictly ascending (bytewise lexicographic
order), hence without duplicates. -/
def KVState.Ordered (s : KVState) : Prop := s.keys.Sorted (· < ·)

instance (s : KVState) : Decidable s.Ordered :=
  inferInstanceAs (Decidable (s.keys.Sorted (· < ·)))

/-- Modelled from the spec: what the specification leaves to the engine.
`rangeCapable` is the capability flag of section 4.2; the other fields are the
status codes the specification does not fix (range seek without a qualifying
key, `First`/`Last` on an empty space, a step past either end, a step from a
cursor that is not Positioned, and a read or delete while not Positioned). -/
structure SpecOpen where
  rangeCapable : Bool
  rangeMiss : Int
  emptySpace : Int
  stepOff : Int
  stepIdle : Int
  notPositioned : Int
  deriving DecidableEq, Repr

/-- Position after an Exact seek of `k`: the first record after the initial
run of keys that differ from `k`, that is the record whose key equals `k`, or
Exhausted when no key equals `k`. -/
def seekExact (ks : List Bytes) (k : Bytes) : Pos :=
  if (ks.takeWhile (fun x => decide (x ≠ k))).length < ks.length then
    .positioned (ks.takeWhile (fun x => decide (x ≠ k))).length
  else .exhausted

/-- Position after a LessOrEqual seek of `k` in a range-capable engine: the
last record of the initial run of keys that are `≤ k`, or Exhausted when the
run is empty. -/
def seekLE (ks : List Bytes) (k : Bytes) : Pos :=
  if (ks.takeWhile (fun x => decide (x ≤ k))).length = 0 then .exhausted
  else .positioned ((ks.takeWhile (fun x => decide (x ≤ k))).length - 1)

/-- Position after a GreaterOrEqual seek of `k` in a range-capable engine: the
first record after the initial run of keys that are `< k`, or Exhausted when
the run is the whole space. -/
def seekGE (ks : List Bytes) (k : Bytes) : Pos :=
  if (ks.takeWhile (fun x => decide (x < k))).length < ks.length then
    .positioned (ks.takeWhile (fun x => decide (x < k))).length
  else .exhausted

/-- The reply of a primitive that only reports a status. -/
def statusReply (res : Int) : Reply := { res := res, n := 0, bytes := [] }

/-- The reply of the two-phase read primitives on the octets `item` of the
current record: with a null buffer only the size is reported; with a buffer,
at most `n` octets are copied and `n` is set to the number copied. -/
def readReply (H : UnqliteH) (item : Bytes) (pBuf : Option Nat) (n : Int) : Reply :=
  match pBuf with
  | none => { res := H.UNQLITE_OK, n := item.length, bytes := [] }
  | some _ => { res := H.UNQLITE_OK, n := (item.take n.toNat).length, bytes := item.take n.toNat }

/-- Modelled from the spec: the cursor primitives of the storage engine
(sections 4.1 to 4.4), which are not among the sources.

* seek: the key sought is the `nKey` octets at `pKey`; the policy is Exact
  when asked for, and also when the engine is not range capable (the
  documented degradation) or the policy code is none of the three.  An Exact
  miss reports `UNQLITE_NOTFOUND`; every miss leaves the cursor Exhausted.
* first/last: Positioned at the minimum/maximum key, Exhausted if the space is
  empty.
* valid: 1 iff Positioned.
* next/prev: one step in key order; past either end the cursor is Exhausted;
  from a cursor that is not Positioned nothing moves.
* delete: removes the current record; the record that followed becomes current,
  or the cursor is Exhausted if none did.
* reset: back to Unpositioned.
* key/data: the two-phase read of the current record.

The handle argument is not inspected: the model describes the one cursor under
study, and the specification leaves calls on a dead handle undefined. -/
def specEngine (H : UnqliteH) (O : SpecOpen) : Engine KVState := fun s c =>
  match c with
  | .unqlite_kv_cursor_release _ _ => (statusReply H.UNQLITE_OK, s)
  | .unqlite_kv_cursor_seek _ pKey nKey iPos =>
    let k := (pKey.getD []).take nKey.toNat
    if iPos = H.UNQLITE_CURSOR_MATCH_EXACT ∨ O.rangeCapable = false then
      (statusReply (if seekExact s.keys k = .exhausted then H.UNQLITE_NOTFOUND
        else H.UNQLITE_OK), { s with pos := seekExact s.keys k })
    else if iPos = H.UNQLITE_CURSOR_MATCH_LE then
      (statusReply (if seekLE s.keys k = .exhausted then O.rangeMiss else H.UNQLITE_OK),
        { s with pos := seekLE s.keys k })
    else if iPos = H.UNQLITE_CURSOR_MATCH_GE then
      (statusReply (if seekGE s.keys k = .exhausted then O.rangeMiss else H.UNQLITE_OK),
        { s with pos := seekGE s.keys k })
    else
      (statusReply (if seekExact s.keys k = .exhausted then H.UNQLITE_NOTFOUND
        else H.UNQLITE_OK), { s with pos := seekExact s.keys k })
  | .unqlite_kv_cursor_first_entry _ =>
    if s.store.length = 0 then (statusReply O.emptySpace, { s with pos := .exhausted })
    else (statusReply H.UNQLITE_OK, { s with pos := .positioned 0 })
  | .unqlite_kv_cursor_last_entry _ =>
    if s.store.length = 0 then (statusReply O.emptySpace, { s with pos := .exhausted })
    else (statusReply H.UNQLITE_OK, { s with pos := .positioned (s.store.length - 1) })
  | .unqlite_kv_cursor_valid_entry _ =>
    (statusReply (if s.current.isSome then 1 else 0), s)
  | .unqlite_kv_cursor_next_entry _ =>
    match s.pos with
    | .positioned i =>
      if i + 1 < s.store.length then (statusReply H.UNQLITE_OK, { s with pos := .positioned (i + 1) })
      else (statusReply O.stepOff, { s with pos := .exhausted })
    | _ => (statusReply O.stepIdle, s)
  | .unqlite_kv_cursor_prev_entry _ =>
    match s.pos with
    | .positioned i =>
      if 0 < i ∧ i < s.store.length then
        (statusReply H.UNQLITE_OK, { s with pos := .positioned (i - 1) })
      else (statusReply O.stepOff, { s with pos := .exhausted })
    | _ => (statusReply O.stepIdle, s)
  | .unqlite_kv_cursor_delete_entry _ =>
    match s.pos with
    | .positioned i =>
      if i < s.store.length then
        (statusReply H.UNQLITE_OK,
          { store := s.store.eraseIdx i,
            pos := if i + 1 < s.store.length then .positioned i else .exhausted })
      else (statusReply O.notPositioned, s)
    | _ => (statusReply O.notPositioned, s)
  | .unqlite_kv_cursor_reset _ => (statusReply H.UNQLITE_OK, { s with pos := .unpositioned })
  | .unqlite_kv_cursor_key _ pBuf n =>
    match s.current with
    | some kv => (readReply H kv.1 pBuf n, s)
    | none => ({ res := O.notPositioned, n := n, bytes := [] }, s)
  | .unqlite_kv_cursor_data _ pBuf n =>
    match s.current with
    | some kv => (readReply H kv.2 pBuf n, s)
    | none => ({ res := O.notPositioned, n := n, bytes := [] }, s)

/-! ## The traversal loops of the symmetry law -/

/-- How a bounded run of a caller loop ends. -/
inductive Run (α : Type) where
  | done (a : α)
  | panicked (p : Panic)
  | outOfFuel
  deriving DecidableEq, Repr

/-- The loop `for ; cr.IsValid(); step() { k, _ := cr.Key(); visit(k) }`, where
`step` is `cr.Next` or `cr.Prev`; `acc` are the keys visited so far.  At most
`fuel` tests of `IsValid` are made. -/
def visitLoop {σ : Type} (H : UnqliteH) (E : Engine σ) (cr : Cursor)
    (step : World σ → GoError × World σ) : Nat → World σ → List Slice → Run (List Slice) × World σ
  | 0, w, _ => (.outOfFuel, w)
  | fuel + 1, w, acc =>
    if (cr.IsValid E w).1 then
      match cr.Key H E (cr.IsValid E w).2 with
      | (.returned ke, w2) => visitLoop H E cr step fuel (step w2).2 (acc ++ [ke.1])
      | (.panicked p, w2) => (.panicked p, w2)
    else (.done acc, (cr.IsValid E w).2)

/-- The run `First()`, then `Next()` repeatedly while `IsValid()`, reading each key with
`Key()`. -/
def traverseAscending {σ : Type} (H : UnqliteH) (E : Engine σ) (cr : Cursor) (fuel : Nat)
    (w : World σ) : Run (List Slice) × World σ :=
  visitLoop H E cr (cr.Next H E) fuel (cr.First H E w).2 []

/-- The run `Last()`, then `Prev()` repeatedly while `IsValid()`, reading each key with
`Key()`. -/
def traverseDescending {σ : Type} (H : UnqliteH) (E : Engine σ) (cr : Cursor) (fuel : Nat)
    (w : World σ) : Run (List Slice) × World σ :=
  visitLoop H E cr (cr.Prev H E) fuel (cr.Last H E w).2 []

/-! ## Concrete values used to evaluate the model -/

/-- A range-capable engine, with one choice of status codes for the cases the
specification leaves open; used to evaluate the model on concrete key spaces. -/
def rangeCapableOpen : SpecOpen :=
  { rangeCapable := true, rangeMiss := -6, emptySpace := -6, stepOff := -28,
    stepIdle := -28, notPositioned := -3 }

/-- The key space of the scenario of section 8: `a ↦ 1`, `c ↦ 3`, `e ↦ 5`, with
a cursor that has not been positioned yet. -/
def aceSpace : KVState :=
  { store := [([97], [49]), ([99], [51]), ([101], [53])], pos := .unpositioned }

/-- A cursor on an open storage handle with a live engine-side handle. -/
def liveCursor : Cursor := { db := some { conn := some 1 }, handle := some 2 }

/-- A key of 2^31 octets, the shortest whose length does not fit a C `int`. -/
@[irreducible] def hugeKey : Bytes := List.replicate 2147483648 0

/-- A key of 2^32 octets of value 0; `C.int` of its length is 0. -/
@[irreducible] def hugeZeroKey : Bytes := List.replicate 4294967296 0

/-- A key of 2^32 octets of value 5; `C.int` of its length is 0. -/
@[irreducible] def hugeFiveKey : Bytes := List.replicate 4294967296 5

/-! ## Theorems -/

theorem statusToError_eq_none (H : UnqliteH) (c : Int) :
    statusToError H c = none ↔ c = H.UNQLITE_OK := by
  unfold statusToError
  by_cases h : c = H.UNQLITE_OK <;> simp [h]

theorem statusToError_of_ne (H : UnqliteH) (c : Int) (h : c ≠ H.UNQLITE_OK) :
    statusToError H c = some (UnQLiteError.mk c) := by
  simp [statusToError, h]

theorem propagates_of_cgo {σ : Type} (H : UnqliteH) (E : Engine σ) (w : World σ) (c : Call) :
    PropagatesVerbatim H E w c (statusToError H (cgo E c w).1.res, (cgo E c w).2) := by
  refine ⟨rfl, rfl, ?_, ?_⟩
  · exact statusToError_eq_none H _
  · exact statusToError_of_ne H _

/-- C1, amended: `Close` is a successful no-op on an already-closed cursor or
an already-closed storage handle.  For every cursor whose `db` reference is
non-nil and whose `handle` is nil or whose `db.conn` is nil, `Close` returns
nil and leaves both the cursor and the world unchanged (no engine primitive is
invoked, the release primitive in particular).  Consequently, for every cursor
on which a first `Close` returned nil, a second `Close`, in whatever state the
engine then is, returns nil again and changes nothing. -/
theorem Close_noop_when_closed {σ : Type} (H : UnqliteH) (E : Engine σ) (cr : Cursor)
    (w : World σ) :
    (∀ d : Database, cr.db = some d → (cr.handle = none ∨ d.conn = none) →
      cr.Close H E w = (.returned none, cr, w)) ∧
    ((cr.Close H E w).1 = .returned none →
      ∀ w2 : World σ, (cr.Close H E w).2.1.Close H E w2 =
        (.returned none, (cr.Close H E w).2.1, w2)) := by
  constructor
  · intro d hd h
    unfold Cursor.Close
    rw [hd]
    rcases h with h | h <;> simp [h]
  · intro h w2
    unfold Cursor.Close at h ⊢
    cases hd : cr.db with
    | none => rw [hd] at h; simp at h
    | some d =>
      rw [hd] at h
      simp only [hd]
      by_cases hg : d.conn ≠ none ∧ cr.handle ≠ none
      · by_cases hr : (cgo E (.unqlite_kv_cursor_release d.conn cr.handle) w).1.res
            = H.UNQLITE_OK
        · simp [hg, hr, hd]
        · simp [hg, hr] at h
      · simp only [hg, if_false, hd]

theorem Close_noop_when_closed_witness :
    (Cursor.mk (some ⟨some 1⟩) none).Close unqlite_h
      (fun (s : Unit) _ => (statusReply (-1), s)) ⟨(), []⟩ =
      (.returned none, Cursor.mk (some ⟨some 1⟩) none, ⟨(), []⟩) :=
  (Close_noop_when_closed unqlite_h (fun (s : Unit) _ => (statusReply (-1), s))
    (Cursor.mk (some ⟨some 1⟩) none) ⟨(), []⟩).1 ⟨some 1⟩ rfl (Or.inl rfl)

/-- C1, counterexample: the zero value of `Cursor` has a nil `handle`, yet
`Close` on it does not return nil: it panics on `cr.db.conn`, `db` being nil. -/
theorem Close_panics_on_nil_db :
    (Cursor.mk none none).handle = none ∧
    (Cursor.mk none none).Close unqlite_h (fun (s : Unit) _ => (statusReply 0, s)) ⟨(), []⟩ =
      (.panicked .nilPointerDereference, Cursor.mk none none, ⟨(), []⟩) :=
  ⟨rfl, rfl⟩

theorem newCalls_append {σ : Type} (w w1 : World σ) (l : List (Call × Reply))
    (h : w1.trace = w.trace ++ l) : newCalls w w1 = l := by
  simp [newCalls, h]

theorem Close_guarded {σ : Type} (H : UnqliteH) (E : Engine σ) (cr : Cursor) (d : Database)
    (w : World σ) (hdb : cr.db = some d) (hc : d.conn ≠ none) (hh : cr.handle ≠ none) :
    cr.Close H E w =
      if (E w.eng (.unqlite_kv_cursor_release d.conn cr.handle)).1.res ≠ H.UNQLITE_OK then
        (.returned (some (UnQLiteError.mk
          (E w.eng (.unqlite_kv_cursor_release d.conn cr.handle)).1.res)), cr,
          (cgo E (.unqlite_kv_cursor_release d.conn cr.handle) w).2)
      else
        (.returned none, { cr with handle := none },
          (cgo E (.unqlite_kv_cursor_release d.conn cr.handle) w).2) := by
  unfold Cursor.Close
  rw [hdb]
  simp only [hc, hh, ne_eq, not_false_eq_true, and_self, if_true]
  rfl

/-- C10: `Close` is atomic with respect to a release failure.  For a cursor
with a non-nil `handle` on an open storage (`db.conn` non-nil), `Close` invokes
the release primitive exactly once (the trace grows by that one invocation and
the engine moves to the state the primitive leaves).  If release reports a
status other than `UNQLITE_OK`, `Close` returns the error carrying that status
and the cursor is unchanged, so that a later `Close` invokes release again; if
release reports `UNQLITE_OK`, `Close` returns nil and the handle becomes nil.
In both cases the `db` reference of the cursor is unchanged. -/
theorem Close_release_atomic {σ : Type} (H : UnqliteH) (E : Engine σ) (cr : Cursor)
    (d : Database) (w : World σ) (hdb : cr.db = some d) (hc : d.conn ≠ none)
    (hh : cr.handle ≠ none) :
    (cr.Close H E w).2.2.trace = w.trace ++
      [(Call.unqlite_kv_cursor_release d.conn cr.handle,
        (E w.eng (.unqlite_kv_cursor_release d.conn cr.handle)).1)] ∧
    (cr.Close H E w).2.2.eng = (E w.eng (.unqlite_kv_cursor_release d.conn cr.handle)).2 ∧
    ((E w.eng (.unqlite_kv_cursor_release d.conn cr.handle)).1.res ≠ H.UNQLITE_OK →
      (cr.Close H E w).1 = .returned (some (UnQLiteError.mk
        (E w.eng (.unqlite_kv_cursor_release d.conn cr.handle)).1.res)) ∧
      (cr.Close H E w).2.1 = cr ∧
      ∀ w2 : World σ, newCalls w2 ((cr.Close H E w).2.1.Close H E w2).2.2 =
        [(Call.unqlite_kv_cursor_release d.conn cr.handle,
          (E w2.eng (.unqlite_kv_cursor_release d.conn cr.handle)).1)]) ∧
    ((E w.eng (.unqlite_kv_cursor_release d.conn cr.handle)).1.res = H.UNQLITE_OK →
      (cr.Close H E w).1 = .returned none ∧ (cr.Close H E w).2.1.handle = none) ∧
    (cr.Close H E w).2.1.db = cr.db := by
  have hw : ∀ w2 : World σ, (cr.Close H E w2).2.2 =
      (cgo E (.unqlite_kv_cursor_release d.conn cr.handle) w2).2 := by
    intro w2
    rw [Close_guarded H E cr d w2 hdb hc hh]
    by_cases hr : (E w2.eng (.unqlite_kv_cursor_release d.conn cr.handle)).1.res
        = H.UNQLITE_OK <;> simp [hr]
  refine ⟨by rw [hw]; rfl, by rw [hw]; rfl, ?_, ?_, ?_⟩
  · intro hr
    have e : cr.Close H E w = (.returned (some (UnQLiteError.mk
        (E w.eng (.unqlite_kv_cursor_release d.conn cr.handle)).1.res)), cr,
        (cgo E (.unqlite_kv_cursor_release d.conn cr.handle) w).2) := by
      rw [Close_guarded H E cr d w hdb hc hh, if_pos hr]
    refine ⟨by rw [e], by rw [e], ?_⟩
    intro w2
    rw [e]
    exact newCalls_append _ _ _ (by rw [hw]; rfl)
  · intro hr
    rw [Close_guarded H E cr d w hdb hc hh, if_neg (not_not.2 hr)]
    exact ⟨rfl, rfl⟩
  · rw [Close_guarded H E cr d w hdb hc hh]
    by_cases hr : (E w.eng (.unqlite_kv_cursor_release d.conn cr.handle)).1.res
        = H.UNQLITE_OK <;> simp [hr]

/-- C6: the engine status is propagated verbatim, with no local recovery and
no retry.  Each of `Seek`, `SeekLE`, `SeekGE`, `First`, `Last`, `Next`, `Prev`,
`Delete` and `Reset`, on every engine and in every state, invokes its primitive
exactly once, returns nil iff the status is `UNQLITE_OK`, and otherwise returns
the error carrying exactly that status; two different status codes give two
different error values. -/
theorem status_propagated_verbatim {σ : Type} (H : UnqliteH) (E : Engine σ) (cr : Cursor)
    (key : Slice) (w : World σ) :
    PropagatesVerbatim H E w (.unqlite_kv_cursor_seek cr.handle (keyPointer key)
      (C_int key.len) H.UNQLITE_CURSOR_MATCH_EXACT) (cr.Seek H E key w) ∧
    PropagatesVerbatim H E w (.unqlite_kv_cursor_seek cr.handle (keyPointer key)
      (C_int key.len) H.UNQLITE_CURSOR_MATCH_LE) (cr.SeekLE H E key w) ∧
    PropagatesVerbatim H E w (.unqlite_kv_cursor_seek cr.handle (keyPointer key)
      (C_int key.len) H.UNQLITE_CURSOR_MATCH_GE) (cr.SeekGE H E key w) ∧
    PropagatesVerbatim H E w (.unqlite_kv_cursor_first_entry cr.handle) (cr.First H E w) ∧
    PropagatesVerbatim H E w (.unqlite_kv_cursor_last_entry cr.handle) (cr.Last H E w) ∧
    PropagatesVerbatim H E w (.unqlite_kv_cursor_next_entry cr.handle) (cr.Next H E w) ∧
    PropagatesVerbatim H E w (.unqlite_kv_cursor_prev_entry cr.handle) (cr.Prev H E w) ∧
    PropagatesVerbatim H E w (.unqlite_kv_cursor_delete_entry cr.handle) (cr.Delete H E w) ∧
    PropagatesVerbatim H E w (.unqlite_kv_cursor_reset cr.handle) (cr.Reset H E w) ∧
    (∀ c c2 : Int, c ≠ c2 → UnQLiteError.mk c ≠ UnQLiteError.mk c2) := by
  refine ⟨propagates_of_cgo H E w _, propagates_of_cgo H E w _, propagates_of_cgo H E w _,
    propagates_of_cgo H E w _, propagates_of_cgo H E w _, propagates_of_cgo H E w _,
    propagates_of_cgo H E w _, propagates_of_cgo H E w _, propagates_of_cgo H E w _, ?_⟩
  intro c c2 h e
  exact h (congrArg UnQLiteError.code e)

theorem twoPhaseRead_size_failed {σ : Type} (H : UnqliteH) (E : Engine σ)
    (prim : Option Nat → Int → Call) (w : World σ)
    (h1 : (sizeReply E prim w).res ≠ H.UNQLITE_OK) :
    twoPhaseRead H E prim w =
      (.returned (none, some (UnQLiteError.mk (sizeReply E prim w).res)),
        afterSize E prim w) := by
  have h1' : ¬ (cgo E (prim none 0) w).1.res = H.UNQLITE_OK := h1
  simp only [twoPhaseRead, ne_eq, h1', not_false_eq_true, if_true]
  rfl

theorem twoPhaseRead_no_buffer {σ : Type} (H : UnqliteH) (E : Engine σ)
    (prim : Option Nat → Int → Call) (w : World σ)
    (h1 : (sizeReply E prim w).res = H.UNQLITE_OK) (hn : ¬ CopyReached H E prim w) :
    ∃ p, twoPhaseRead H E prim w = (.panicked p, afterSize E prim w) := by
  have h1' : (cgo E (prim none 0) w).1.res = H.UNQLITE_OK := h1
  have hn' : ¬ (0 < (cgo E (prim none 0) w).1.n ∧ (cgo E (prim none 0) w).1.n ≤ maxAlloc) :=
    fun hx => hn ⟨h1, hx.1, hx.2⟩
  by_cases hm : (cgo E (prim none 0) w).1.n < 0 ∨ maxAlloc < (cgo E (prim none 0) w).1.n
  · refine ⟨.makesliceLenOutOfRange, ?_⟩
    simp only [twoPhaseRead, ne_eq, h1', not_true_eq_false, if_false, hm, if_true]
    rfl
  · have hz : (cgo E (prim none 0) w).1.n.toNat = 0 := by omega
    refine ⟨.indexOutOfRange, ?_⟩
    simp only [twoPhaseRead, ne_eq, h1', not_true_eq_false, if_false, hm,
      List.length_replicate, hz, if_true]
    rfl

theorem twoPhaseRead_copy_reached {σ : Type} (H : UnqliteH) (E : Engine σ)
    (prim : Option Nat → Int → Call) (w : World σ) (hc : CopyReached H E prim w) :
    twoPhaseRead H E prim w =
      if (copyReply E prim w).res ≠ H.UNQLITE_OK then
        (.returned (none, some (UnQLiteError.mk (copyReply E prim w).res)),
          afterCopy E prim w)
      else
        (.returned (some (copyInto (List.replicate (sizeReply E prim w).n.toNat 0)
          (copyReply E prim w).bytes), none), afterCopy E prim w) := by
  obtain ⟨h1, hpos, hmax⟩ := hc
  have h1' : (cgo E (prim none 0) w).1.res = H.UNQLITE_OK := h1
  have hpos' : 0 < (cgo E (prim none 0) w).1.n := hpos
  have hmax' : (cgo E (prim none 0) w).1.n ≤ maxAlloc := hmax
  have hm : ¬ ((cgo E (prim none 0) w).1.n < 0 ∨ maxAlloc < (cgo E (prim none 0) w).1.n) := by
    omega
  have hz : ¬ (cgo E (prim none 0) w).1.n.toNat = 0 := by omega
  simp only [twoPhaseRead, ne_eq, h1', not_true_eq_false, if_false, hm,
    List.length_replicate, hz]
  rfl

theorem C_int_of_small (n : Nat) (h : n < 2147483648) : C_int (n : Int) = n := by
  unfold C_int
  omega

theorem keyPointer_of_len_zero (key : Slice) (h : key.len = 0) : keyPointer key = none := by
  simp [keyPointer, h]

theorem keyPointer_of_len_pos (key : Slice) (h : 0 < key.len) : keyPointer key = key := by
  simp [keyPointer, h]

/-- C8, amended: an empty key is valid input to every seek.  For a key of
length zero (nil or empty slice), `Seek`, `SeekLE` and `SeekGE` each invoke the
engine seek once with a null key pointer and length 0 under their own policy,
and return exactly what the status of the engine determines.  For a non-empty
key the engine receives the octets of the key from index 0 and the length
`C.int(len(key))`, which is `len(key)` whenever `len(key) < 2^31`. -/
theorem seek_key_marshalling {σ : Type} (H : UnqliteH) (E : Engine σ) (cr : Cursor)
    (key : Slice) (w : World σ) :
    (key.len = 0 →
      PropagatesVerbatim H E w (.unqlite_kv_cursor_seek cr.handle none 0
        H.UNQLITE_CURSOR_MATCH_EXACT) (cr.Seek H E key w) ∧
      PropagatesVerbatim H E w (.unqlite_kv_cursor_seek cr.handle none 0
        H.UNQLITE_CURSOR_MATCH_LE) (cr.SeekLE H E key w) ∧
      PropagatesVerbatim H E w (.unqlite_kv_cursor_seek cr.handle none 0
        H.UNQLITE_CURSOR_MATCH_GE) (cr.SeekGE H E key w)) ∧
    (0 < key.len →
      PropagatesVerbatim H E w (.unqlite_kv_cursor_seek cr.handle key (C_int key.len)
        H.UNQLITE_CURSOR_MATCH_EXACT) (cr.Seek H E key w) ∧
      PropagatesVerbatim H E w (.unqlite_kv_cursor_seek cr.handle key (C_int key.len)
        H.UNQLITE_CURSOR_MATCH_LE) (cr.SeekLE H E key w) ∧
      PropagatesVerbatim H E w (.unqlite_kv_cursor_seek cr.handle key (C_int key.len)
        H.UNQLITE_CURSOR_MATCH_GE) (cr.SeekGE H E key w)) ∧
    (key.len < 2147483648 → C_int key.len = key.len) := by
  refine ⟨fun h => ?_, fun h => ?_, fun h => C_int_of_small _ h⟩
  · have hp := keyPointer_of_len_zero key h
    have hc : C_int (key.len : Int) = 0 := by rw [h]; rfl
    refine ⟨?_, ?_, ?_⟩
    · have := propagates_of_cgo H E w (.unqlite_kv_cursor_seek cr.handle (keyPointer key)
        (C_int key.len) H.UNQLITE_CURSOR_MATCH_EXACT)
      rw [hp, hc] at this
      simpa [Cursor.Seek, hp, hc] using this
    · have := propagates_of_cgo H E w (.unqlite_kv_cursor_seek cr.handle (keyPointer key)
        (C_int key.len) H.UNQLITE_CURSOR_MATCH_LE)
      rw [hp, hc] at this
      simpa [Cursor.SeekLE, hp, hc] using this
    · have := propagates_of_cgo H E w (.unqlite_kv_cursor_seek cr.handle (keyPointer key)
        (C_int key.len) H.UNQLITE_CURSOR_MATCH_GE)
      rw [hp, hc] at this
      simpa [Cursor.SeekGE, hp, hc] using this
  · have hp := keyPointer_of_len_pos key h
    refine ⟨?_, ?_, ?_⟩
    · have := propagates_of_cgo H E w (.unqlite_kv_cursor_seek cr.handle (keyPointer key)
        (C_int key.len) H.UNQLITE_CURSOR_MATCH_EXACT)
      rw [hp] at this
      simpa [Cursor.Seek, hp] using this
    · have := propagates_of_cgo H E w (.unqlite_kv_cursor_seek cr.handle (keyPointer key)
        (C_int key.len) H.UNQLITE_CURSOR_MATCH_LE)
      rw [hp] at this
      simpa [Cursor.SeekLE, hp] using this
    · have := propagates_of_cgo H E w (.unqlite_kv_cursor_seek cr.handle (keyPointer key)
        (C_int key.len) H.UNQLITE_CURSOR_MATCH_GE)
      rw [hp] at this
      simpa [Cursor.SeekGE, hp] using this


theorem hugeKey_length : hugeKey.length = 2147483648 := by
  unfold hugeKey
  exact List.length_replicate _ _

theorem hugeKey_len : Slice.len (some hugeKey) = 2147483648 := hugeKey_length

/-- C8, counterexample: for a key of 2^31 octets, `Seek` hands the engine the
length `-2147483648`, not `len(key)`. -/
theorem seek_length_truncated :
    Slice.len (some hugeKey) = 2147483648 ∧
    ((Cursor.mk (some ⟨some 1⟩) (some 2)).Seek unqlite_h (fun (s : Unit) _ => (statusReply 0, s))
      (some hugeKey) ⟨(), []⟩).2.trace =
      [(Call.unqlite_kv_cursor_seek (some 2) (some hugeKey)
        (-2147483648) 1, statusReply 0)] := by
  refine ⟨hugeKey_len, ?_⟩
  have hp := keyPointer_of_len_pos (some hugeKey) (by rw [hugeKey_len]; decide)
  have hc : C_int ((Slice.len (some hugeKey) : Nat) : Int) = -2147483648 := by
    rw [hugeKey_len]; rfl
  simp only [Cursor.Seek, cgo, hp, hc, unqlite_h, List.nil_append]

/-- C7, counterexample: on a cursor whose storage handle is closed (`db.conn`
nil), `Seek` passes the dead handle to the engine and, the engine answering
`UNQLITE_OK`, returns nil; on a cursor whose own handle is nil, `First` passes
the null handle to the engine and returns nil likewise. -/
theorem dead_handle_reaches_engine :
    (Cursor.mk (some ⟨none⟩) (some 7)).Seek unqlite_h (fun (s : Unit) _ => (statusReply 0, s))
      (some [1]) ⟨(), []⟩ =
      (none, ⟨(), [(Call.unqlite_kv_cursor_seek (some 7) (some [1]) 1 1, statusReply 0)]⟩) ∧
    (Cursor.mk (some ⟨some 1⟩) none).First unqlite_h (fun (s : Unit) _ => (statusReply 0, s))
      ⟨(), []⟩ =
      (none, ⟨(), [(Call.unqlite_kv_cursor_first_entry none, statusReply 0)]⟩) := by
  constructor <;> rfl


theorem passesHandle_cgo {σ : Type} (E : Engine σ) (c : Call) (w : World σ) :
    PassesHandle c.handle w (cgo E c w).2 := by
  have t : newCalls w (cgo E c w).2 = [(c, (E w.eng c).1)] := newCalls_append _ _ _ rfl
  unfold PassesHandle
  rw [t]
  simp

theorem newCalls_afterSize {σ : Type} (E : Engine σ) (prim : Option Nat → Int → Call)
    (w : World σ) : newCalls w (afterSize E prim w) = [(prim none 0, sizeReply E prim w)] :=
  newCalls_append _ _ _ rfl

theorem newCalls_afterCopy {σ : Type} (E : Engine σ) (prim : Option Nat → Int → Call)
    (w : World σ) : newCalls w (afterCopy E prim w) =
      [(prim none 0, sizeReply E prim w), (copyCall E prim w, copyReply E prim w)] :=
  newCalls_append _ _ _ (by simp [afterCopy, afterSize])

theorem twoPhaseRead_world {σ : Type} (H : UnqliteH) (E : Engine σ)
    (prim : Option Nat → Int → Call) (w : World σ) :
    ((twoPhaseRead H E prim w).2 = afterSize E prim w ∧
      ((∃ s e, (twoPhaseRead H E prim w).1 = .returned (s, some e)) →
        (sizeReply E prim w).res ≠ H.UNQLITE_OK)) ∨
    ((twoPhaseRead H E prim w).2 = afterCopy E prim w ∧
      ((∃ s e, (twoPhaseRead H E prim w).1 = .returned (s, some e)) →
        (copyReply E prim w).res ≠ H.UNQLITE_OK)) := by
  by_cases h1 : (sizeReply E prim w).res = H.UNQLITE_OK
  · by_cases hc : CopyReached H E prim w
    · right
      rw [twoPhaseRead_copy_reached H E prim w hc]
      by_cases h2 : (copyReply E prim w).res = H.UNQLITE_OK
      · rw [if_neg (not_not.2 h2)]; simp
      · rw [if_pos h2]; exact ⟨rfl, fun _ => h2⟩
    · left
      obtain ⟨p, hp⟩ := twoPhaseRead_no_buffer H E prim w h1 hc
      rw [hp]; simp
  · left
    rw [twoPhaseRead_size_failed H E prim w h1]
    exact ⟨rfl, fun _ => h1⟩

theorem passesHandle_twoPhaseRead {σ : Type} (H : UnqliteH) (E : Engine σ)
    (prim : Option Nat → Int → Call) (h : Ptr) (hp : ∀ b n, (prim b n).handle = h)
    (w : World σ) : PassesHandle h w (twoPhaseRead H E prim w).2 := by
  unfold PassesHandle
  rcases twoPhaseRead_world H E prim w with ⟨e, _⟩ | ⟨e, _⟩
  · rw [e, newCalls_afterSize]
    simp [hp]
  · rw [e, newCalls_afterCopy]
    simp [hp, copyCall]

theorem twoPhaseRead_error_in_trace {σ : Type} (H : UnqliteH) (E : Engine σ)
    (prim : Option Nat → Int → Call) (w : World σ)
    (he : ∃ s e, (twoPhaseRead H E prim w).1 = .returned (s, some e)) :
    ∃ x ∈ newCalls w (twoPhaseRead H E prim w).2, x.2.res ≠ H.UNQLITE_OK := by
  rcases twoPhaseRead_world H E prim w with ⟨e, hx⟩ | ⟨e, hx⟩
  · rw [e, newCalls_afterSize]
    exact ⟨_, List.mem_singleton_self _, hx he⟩
  · rw [e, newCalls_afterCopy]
    exact ⟨_, List.mem_cons_of_mem _ (List.mem_singleton_self _), hx he⟩

/-- C7, amended: outside `Close` nothing guards against use after close.
Whatever `db.conn` and `handle` are, each of `Seek`, `SeekLE`, `SeekGE`,
`First`, `Last`, `Next`, `Prev`, `Delete`, `Reset`, `Key`, `Value` and
`IsValid` invokes the engine, every invocation it makes carries the handle of
the cursor unchanged, its outcome does not depend on `db`, and it reports an
error (`IsValid`: false) only when the engine itself reported a status other
than `UNQLITE_OK` (`IsValid`: a value other than 1).  `Close` alone checks:
with a nil `handle`, a nil `db` or a nil `db.conn` it invokes nothing. -/
theorem methods_pass_handle_unguarded {σ : Type} (H : UnqliteH) (E : Engine σ) (cr : Cursor)
    (d : Option Database) (key : Slice) (w : World σ) :
    (PassesHandle cr.handle w (cr.Seek H E key w).2 ∧
     PassesHandle cr.handle w (cr.SeekLE H E key w).2 ∧
     PassesHandle cr.handle w (cr.SeekGE H E key w).2 ∧
     PassesHandle cr.handle w (cr.First H E w).2 ∧
     PassesHandle cr.handle w (cr.Last H E w).2 ∧
     PassesHandle cr.handle w (cr.Next H E w).2 ∧
     PassesHandle cr.handle w (cr.Prev H E w).2 ∧
     PassesHandle cr.handle w (cr.Delete H E w).2 ∧
     PassesHandle cr.handle w (cr.Reset H E w).2 ∧
     PassesHandle cr.handle w (cr.Key H E w).2 ∧
     PassesHandle cr.handle w (cr.Value H E w).2 ∧
     PassesHandle cr.handle w (cr.IsValid E w).2) ∧
    ((Cursor.mk d cr.handle).Seek H E key w = cr.Seek H E key w ∧
     (Cursor.mk d cr.handle).SeekLE H E key w = cr.SeekLE H E key w ∧
     (Cursor.mk d cr.handle).SeekGE H E key w = cr.SeekGE H E key w ∧
     (Cursor.mk d cr.handle).First H E w = cr.First H E w ∧
     (Cursor.mk d cr.handle).Last H E w = cr.Last H E w ∧
     (Cursor.mk d cr.handle).Next H E w = cr.Next H E w ∧
     (Cursor.mk d cr.handle).Prev H E w = cr.Prev H E w ∧
     (Cursor.mk d cr.handle).Delete H E w = cr.Delete H E w ∧
     (Cursor.mk d cr.handle).Reset H E w = cr.Reset H E w ∧
     (Cursor.mk d cr.handle).Key H E w = cr.Key H E w ∧
     (Cursor.mk d cr.handle).Value H E w = cr.Value H E w ∧
     (Cursor.mk d cr.handle).IsValid E w = cr.IsValid E w) ∧
    (((cr.Seek H E key w).1 ≠ none → ∃ x ∈ newCalls w (cr.Seek H E key w).2,
        x.2.res ≠ H.UNQLITE_OK) ∧
     ((cr.SeekLE H E key w).1 ≠ none → ∃ x ∈ newCalls w (cr.SeekLE H E key w).2,
        x.2.res ≠ H.UNQLITE_OK) ∧
     ((cr.SeekGE H E key w).1 ≠ none → ∃ x ∈ newCalls w (cr.SeekGE H E key w).2,
        x.2.res ≠ H.UNQLITE_OK) ∧
     ((cr.First H E w).1 ≠ none → ∃ x ∈ newCalls w (cr.First H E w).2,
        x.2.res ≠ H.UNQLITE_OK) ∧
     ((cr.Last H E w).1 ≠ none → ∃ x ∈ newCalls w (cr.Last H E w).2,
        x.2.res ≠ H.UNQLITE_OK) ∧
     ((cr.Next H E w).1 ≠ none → ∃ x ∈ newCalls w (cr.Next H E w).2,
        x.2.res ≠ H.UNQLITE_OK) ∧
     ((cr.Prev H E w).1 ≠ none → ∃ x ∈ newCalls w (cr.Prev H E w).2,
        x.2.res ≠ H.UNQLITE_OK) ∧
     ((cr.Delete H E w).1 ≠ none → ∃ x ∈ newCalls w (cr.Delete H E w).2,
        x.2.res ≠ H.UNQLITE_OK) ∧
     ((cr.Reset H E w).1 ≠ none → ∃ x ∈ newCalls w (cr.Reset H E w).2,
        x.2.res ≠ H.UNQLITE_OK) ∧
     ((∃ s e, (cr.Key H E w).1 = .returned (s, some e)) →
        ∃ x ∈ newCalls w (cr.Key H E w).2, x.2.res ≠ H.UNQLITE_OK) ∧
     ((∃ s e, (cr.Value H E w).1 = .returned (s, some e)) →
        ∃ x ∈ newCalls w (cr.Value H E w).2, x.2.res ≠ H.UNQLITE_OK) ∧
     ((cr.IsValid E w).1 = false → ∃ x ∈ newCalls w (cr.IsValid E w).2, x.2.res ≠ 1)) ∧
    ((cr.handle = none ∨ cr.db = none ∨ ∃ d0, cr.db = some d0 ∧ d0.conn = none) →
      newCalls w (cr.Close H E w).2.2 = []) := by
  have key1 : ∀ c : Call, (statusToError H (cgo E c w).1.res ≠ none →
      ∃ x ∈ newCalls w (cgo E c w).2, x.2.res ≠ H.UNQLITE_OK) := by
    intro c hne
    have t : newCalls w (cgo E c w).2 = [(c, (E w.eng c).1)] := newCalls_append _ _ _ rfl
    refine ⟨(c, (E w.eng c).1), by rw [t]; exact List.mem_singleton_self _, ?_⟩
    intro hok
    exact hne ((statusToError_eq_none H _).2 hok)
  refine ⟨⟨?_, ?_, ?_, ?_, ?_, ?_, ?_, ?_, ?_, ?_, ?_, ?_⟩,
    ⟨rfl, rfl, rfl, rfl, rfl, rfl, rfl, rfl, rfl, rfl, rfl, rfl⟩,
    ⟨key1 _, key1 _, key1 _, key1 _, key1 _, key1 _, key1 _, key1 _, key1 _, ?_, ?_, ?_⟩, ?_⟩
  · exact passesHandle_cgo E (.unqlite_kv_cursor_seek cr.handle _ _ _) w
  · exact passesHandle_cgo E (.unqlite_kv_cursor_seek cr.handle _ _ _) w
  · exact passesHandle_cgo E (.unqlite_kv_cursor_seek cr.handle _ _ _) w
  · exact passesHandle_cgo E (.unqlite_kv_cursor_first_entry cr.handle) w
  · exact passesHandle_cgo E (.unqlite_kv_cursor_last_entry cr.handle) w
  · exact passesHandle_cgo E (.unqlite_kv_cursor_next_entry cr.handle) w
  · exact passesHandle_cgo E (.unqlite_kv_cursor_prev_entry cr.handle) w
  · exact passesHandle_cgo E (.unqlite_kv_cursor_delete_entry cr.handle) w
  · exact passesHandle_cgo E (.unqlite_kv_cursor_reset cr.handle) w
  · exact passesHandle_twoPhaseRead H E (Call.unqlite_kv_cursor_key cr.handle) cr.handle
      (fun _ _ => rfl) w
  · exact passesHandle_twoPhaseRead H E (Call.unqlite_kv_cursor_data cr.handle) cr.handle
      (fun _ _ => rfl) w
  · exact passesHandle_cgo E (.unqlite_kv_cursor_valid_entry cr.handle) w
  · exact twoPhaseRead_error_in_trace H E _ w
  · exact twoPhaseRead_error_in_trace H E _ w
  · intro hf
    have t : newCalls w (cgo E (.unqlite_kv_cursor_valid_entry cr.handle) w).2 =
        [(.unqlite_kv_cursor_valid_entry cr.handle,
          (E w.eng (.unqlite_kv_cursor_valid_entry cr.handle)).1)] := newCalls_append _ _ _ rfl
    refine ⟨_, by rw [show (cr.IsValid E w).2 = (cgo E (.unqlite_kv_cursor_valid_entry cr.handle) w).2
      from rfl, t]; exact List.mem_singleton_self _, ?_⟩
    simpa [Cursor.IsValid, cgo] using hf
  · intro h
    unfold Cursor.Close
    cases hd : cr.db with
    | none => simp [newCalls]
    | some d1 =>
      rcases h with h | h | ⟨d0, h0, h⟩
      · simp [h, newCalls]
      · rw [hd] at h; cases h
      · rw [hd] at h0
        cases h0
        simp [h, newCalls]

theorem sought_of_small (key : Slice) (h : key.len < 2147483648) :
    ((keyPointer key).getD []).take (C_int key.len).toNat = key.getD [] := by
  rw [C_int_of_small _ h]
  by_cases h0 : 0 < key.len
  · rw [keyPointer_of_len_pos key h0]
    simp [Slice.len]
  · have h0 : key.len = 0 := by omega
    rw [keyPointer_of_len_zero key h0]
    have : (key.getD []).length = 0 := h0
    simp [List.length_eq_zero.1 this]

theorem seekExact_absent (ks : List Bytes) (k : Bytes) (h : k ∉ ks) :
    seekExact ks k = .exhausted := by
  have e : ks.takeWhile (fun x => decide (x ≠ k)) = ks := by
    rw [List.takeWhile_eq_self_iff]
    intro x hx
    have : x ≠ k := fun hxk => h (hxk ▸ hx)
    simpa using this
  unfold seekExact
  rw [e]
  simp

theorem seekLE_spec (k : Bytes) : ∀ ks : List Bytes, ks.Sorted (· < ·) →
    ((ks.takeWhile (fun x => decide (x ≤ k))).length = 0 → ∀ y ∈ ks, ¬ y ≤ k) ∧
    (0 < (ks.takeWhile (fun x => decide (x ≤ k))).length →
      ∃ x, ks[(ks.takeWhile (fun x => decide (x ≤ k))).length - 1]? = some x ∧
        x ≤ k ∧ ∀ y ∈ ks, y ≤ k → y ≤ x)
  | [], _ => by simp
  | a :: t, hs => by
    have hst : t.Sorted (· < ·) := hs.of_cons
    have hat : ∀ y ∈ t, a < y := fun y hy => List.rel_of_sorted_cons hs y hy
    obtain ⟨ih0, ih1⟩ := seekLE_spec k t hst
    by_cases ha : a ≤ k
    · have e : (a :: t).takeWhile (fun x => decide (x ≤ k))
          = a :: t.takeWhile (fun x => decide (x ≤ k)) := by simp [List.takeWhile, ha]
      rw [e]
      refine ⟨by simp, fun _ => ?_⟩
      by_cases hc : (t.takeWhile (fun x => decide (x ≤ k))).length = 0
      · refine ⟨a, by simp [hc], ha, ?_⟩
        intro y hy hyk
        rcases List.mem_cons.1 hy with rfl | hy
        · exact le_rfl
        · exact absurd hyk (ih0 hc y hy)
      · obtain ⟨x, hx, hxk, hmax⟩ := ih1 (Nat.pos_of_ne_zero hc)
        refine ⟨x, ?_, hxk, ?_⟩
        · obtain ⟨m, hm⟩ := Nat.exists_eq_succ_of_ne_zero hc
          rw [hm] at hx
          simpa [hm] using hx
        · intro y hy hyk
          rcases List.mem_cons.1 hy with rfl | hy
          · exact le_of_lt (hat x (List.getElem?_mem hx))
          · exact hmax y hy hyk
    · have e : (a :: t).takeWhile (fun x => decide (x ≤ k)) = [] := by
        simp [List.takeWhile, ha]
      rw [e]
      refine ⟨fun _ y hy hyk => ?_, by simp⟩
      rcases List.mem_cons.1 hy with rfl | hy
      · exact ha hyk
      · exact ha (le_trans (le_of_lt (hat y hy)) hyk)

theorem seekGE_spec (k : Bytes) : ∀ ks : List Bytes, ks.Sorted (· < ·) →
    ((ks.takeWhile (fun x => decide (x < k))).length < ks.length →
      ∃ x, ks[(ks.takeWhile (fun x => decide (x < k))).length]? = some x ∧
        k ≤ x ∧ ∀ y ∈ ks, k ≤ y → x ≤ y) ∧
    (¬ (ks.takeWhile (fun x => decide (x < k))).length < ks.length → ∀ y ∈ ks, ¬ k ≤ y)
  | [], _ => by simp
  | a :: t, hs => by
    have hst : t.Sorted (· < ·) := hs.of_cons
    have hat : ∀ y ∈ t, a < y := fun y hy => List.rel_of_sorted_cons hs y hy
    obtain ⟨ih0, ih1⟩ := seekGE_spec k t hst
    by_cases ha : a < k
    · have e : (a :: t).takeWhile (fun x => decide (x < k))
          = a :: t.takeWhile (fun x => decide (x < k)) := by simp [List.takeWhile, ha]
      rw [e]
      constructor
      · intro hlt
        have hlt2 : (t.takeWhile (fun x => decide (x < k))).length < t.length := by
          simpa using hlt
        obtain ⟨x, hx, hkx, hmin⟩ := ih0 hlt2
        refine ⟨x, by simpa using hx, hkx, ?_⟩
        intro y hy hky
        rcases List.mem_cons.1 hy with rfl | hy
        · exact absurd ha (not_lt.2 hky)
        · exact hmin y hy hky
      · intro hlt y hy hky
        have hlt2 : ¬ (t.takeWhile (fun x => decide (x < k))).length < t.length := by
          simpa using hlt
        rcases List.mem_cons.1 hy with rfl | hy
        · exact absurd ha (not_lt.2 hky)
        · exact ih1 hlt2 y hy hky
    · have e : (a :: t).takeWhile (fun x => decide (x < k)) = [] := by
        simp [List.takeWhile, ha]
      rw [e]
      refine ⟨fun _ => ⟨a, by simp, not_lt.1 ha, ?_⟩, by simp⟩
      intro y hy _
      rcases List.mem_cons.1 hy with rfl | hy
      · exact le_rfl
      · exact le_of_lt (hat y hy)

theorem Seek_specEngine (H : UnqliteH) (O : SpecOpen) (cr : Cursor) (s : KVState)
    (tr : List (Call × Reply)) (key : Slice) :
    (cr.Seek H (specEngine H O) key ⟨s, tr⟩).1 =
      statusToError H (if seekExact s.keys
        (((keyPointer key).getD []).take (C_int key.len).toNat) = .exhausted
        then H.UNQLITE_NOTFOUND else H.UNQLITE_OK) ∧
    (cr.Seek H (specEngine H O) key ⟨s, tr⟩).2.eng =
      KVState.mk s.store (seekExact s.keys
        (((keyPointer key).getD []).take (C_int key.len).toNat)) := by
  simp [Cursor.Seek, cgo, specEngine, statusReply]

theorem IsValid_specEngine (H : UnqliteH) (O : SpecOpen) (cr : Cursor) (w : World KVState) :
    (cr.IsValid (specEngine H O) w).1 = w.eng.current.isSome ∧
    (cr.IsValid (specEngine H O) w).2.eng = w.eng := by
  cases h : w.eng.current <;> simp [Cursor.IsValid, cgo, specEngine, statusReply, h]

/-- C2, amended: for every key `k` of length below 2^31 that is absent from
the key space, `Seek(k)` returns the error carrying `UNQLITE_NOTFOUND`, leaves
the key space as it was and the cursor Exhausted, and `IsValid()` is false
afterwards; that result differs from nil and from the error of every other
status code.  (`UNQLITE_NOTFOUND` is assumed to differ from `UNQLITE_OK`.) -/
theorem Seek_absent_key_NotFound (H : UnqliteH) (O : SpecOpen) (cr : Cursor) (s : KVState)
    (tr : List (Call × Reply)) (key : Slice)
    (hH : H.UNQLITE_NOTFOUND ≠ H.UNQLITE_OK)
    (hlen : key.len < 2147483648) (habs : key.getD [] ∉ s.keys) :
    (cr.Seek H (specEngine H O) key ⟨s, tr⟩).1 = some (UnQLiteError.mk H.UNQLITE_NOTFOUND) ∧
    (cr.Seek H (specEngine H O) key ⟨s, tr⟩).2.eng.pos = .exhausted ∧
    (cr.Seek H (specEngine H O) key ⟨s, tr⟩).2.eng.store = s.store ∧
    (cr.IsValid (specEngine H O) (cr.Seek H (specEngine H O) key ⟨s, tr⟩).2).1 = false ∧
    (cr.Seek H (specEngine H O) key ⟨s, tr⟩).1 ≠ none ∧
    (∀ c : Int, c ≠ H.UNQLITE_NOTFOUND →
      (cr.Seek H (specEngine H O) key ⟨s, tr⟩).1 ≠ some (UnQLiteError.mk c)) := by
  obtain ⟨h1, h2⟩ := Seek_specEngine H O cr s tr key
  rw [sought_of_small key hlen, seekExact_absent _ _ habs] at h1 h2
  have e1 : (cr.Seek H (specEngine H O) key ⟨s, tr⟩).1
      = some (UnQLiteError.mk H.UNQLITE_NOTFOUND) := by
    rw [h1]; simp [statusToError, hH]
  have hv := (IsValid_specEngine H O cr (cr.Seek H (specEngine H O) key ⟨s, tr⟩).2).1
  refine ⟨e1, by rw [h2], by rw [h2], ?_, by rw [e1]; simp, ?_⟩
  · rw [hv, h2]; rfl
  · intro c hc
    rw [e1]
    intro e
    exact hc (congrArg UnQLiteError.code (Option.some.inj e)).symm

theorem Seek_absent_key_NotFound_witness :
    (liveCursor.Seek unqlite_h (specEngine unqlite_h rangeCapableOpen) (some [98])
      ⟨aceSpace, []⟩).1 = some (UnQLiteError.mk (-6)) :=
  (Seek_absent_key_NotFound unqlite_h rangeCapableOpen liveCursor aceSpace [] (some [98])
    (by decide) (by decide) (by decide)).1


theorem hugeZeroKey_length : hugeZeroKey.length = 4294967296 := by
  unfold hugeZeroKey
  exact List.length_replicate _ _

theorem hugeZeroKey_len : Slice.len (some hugeZeroKey) = 4294967296 := hugeZeroKey_length

/-- C2, counterexample: the key made of 2^32 zero octets is absent from the
key space that holds only the zero-length key, yet `Seek` of it succeeds and
leaves the cursor Positioned: the length handed to the engine is `C.int(2^32)`,
which is 0. -/
theorem Seek_oversized_absent_key_found :
    hugeZeroKey ∉ KVState.keys ⟨[([], [1])], .unpositioned⟩ ∧
    (liveCursor.Seek unqlite_h (specEngine unqlite_h rangeCapableOpen)
      (some hugeZeroKey) ⟨⟨[([], [1])], .unpositioned⟩, []⟩).1 = none ∧
    (liveCursor.Seek unqlite_h (specEngine unqlite_h rangeCapableOpen)
      (some hugeZeroKey) ⟨⟨[([], [1])], .unpositioned⟩, []⟩).2.eng.pos = .positioned 0 := by
  have hc : C_int ((Slice.len (some hugeZeroKey) : Nat) : Int) = 0 := by
    rw [hugeZeroKey_len]; rfl
  obtain ⟨h1, h2⟩ := Seek_specEngine unqlite_h rangeCapableOpen liveCursor
    ⟨[([], [1])], .unpositioned⟩ [] (some hugeZeroKey)
  rw [hc] at h1 h2
  have hk : KVState.keys ⟨[([], [1])], .unpositioned⟩ = [[]] := rfl
  have hs : seekExact [([] : Bytes)] [] = .positioned 0 := by decide
  simp only [Int.toNat_zero, List.take_zero, hk, hs] at h1 h2
  refine ⟨?_, ?_, ?_⟩
  · rw [hk]
    intro hmem
    have hlen := congrArg List.length (List.mem_singleton.1 hmem)
    rw [hugeZeroKey_length] at hlen
    exact absurd hlen (by decide)
  · rw [h1]; decide
  · rw [h2]

theorem SeekLE_specEngine (H : UnqliteH) (O : SpecOpen) (cr : Cursor) (s : KVState)
    (tr : List (Call × Reply)) (key : Slice) (hcap : O.rangeCapable = true)
    (hLE : H.UNQLITE_CURSOR_MATCH_LE ≠ H.UNQLITE_CURSOR_MATCH_EXACT) :
    (cr.SeekLE H (specEngine H O) key ⟨s, tr⟩).2.eng =
      KVState.mk s.store (seekLE s.keys
        (((keyPointer key).getD []).take (C_int key.len).toNat)) := by
  simp [Cursor.SeekLE, cgo, specEngine, hcap, hLE]

theorem SeekGE_specEngine (H : UnqliteH) (O : SpecOpen) (cr : Cursor) (s : KVState)
    (tr : List (Call × Reply)) (key : Slice) (hcap : O.rangeCapable = true)
    (hGE : H.UNQLITE_CURSOR_MATCH_GE ≠ H.UNQLITE_CURSOR_MATCH_EXACT)
    (hGL : H.UNQLITE_CURSOR_MATCH_GE ≠ H.UNQLITE_CURSOR_MATCH_LE) :
    (cr.SeekGE H (specEngine H O) key ⟨s, tr⟩).2.eng =
      KVState.mk s.store (seekGE s.keys
        (((keyPointer key).getD []).take (C_int key.len).toNat)) := by
  simp [Cursor.SeekGE, cgo, specEngine, hcap, hGE, hGL]

theorem record_of_key (s : KVState) (i : Nat) (x : Bytes) (h : s.keys[i]? = some x) :
    ∃ kv, s.store[i]? = some kv ∧ kv.1 = x := by
  unfold KVState.keys at h
  rw [List.getElem?_map] at h
  cases hq : s.store[i]? with
  | none => rw [hq] at h; cases h
  | some kv =>
    rw [hq] at h
    exact ⟨kv, rfl, Option.some.inj h⟩

theorem seekLE_positions (s : KVState) (k : Bytes) (hs : s.Ordered) :
    ((∃ y ∈ s.keys, y ≤ k) → ∃ i kv, seekLE s.keys k = .positioned i ∧
      s.store[i]? = some kv ∧ IsGreatest {y | y ∈ s.keys ∧ y ≤ k} kv.1) ∧
    ((¬ ∃ y ∈ s.keys, y ≤ k) → seekLE s.keys k = .exhausted) := by
  obtain ⟨h0, h1⟩ := seekLE_spec k s.keys hs
  unfold seekLE
  by_cases hc : (s.keys.takeWhile (fun x => decide (x ≤ k))).length = 0
  · refine ⟨fun ⟨y, hy, hyk⟩ => absurd hyk (h0 hc y hy), fun _ => by simp [hc]⟩
  · obtain ⟨x, hx, hxk, hmax⟩ := h1 (Nat.pos_of_ne_zero hc)
    obtain ⟨kv, hkv, rfl⟩ := record_of_key s _ _ hx
    refine ⟨fun _ => ⟨_, kv, by simp [hc], hkv, ⟨List.getElem?_mem hx, hxk⟩, ?_⟩, fun hno => ?_⟩
    · intro y hy
      exact hmax y hy.1 hy.2
    · exact absurd ⟨kv.1, List.getElem?_mem hx, hxk⟩ hno

theorem seekGE_positions (s : KVState) (k : Bytes) (hs : s.Ordered) :
    ((∃ y ∈ s.keys, k ≤ y) → ∃ i kv, seekGE s.keys k = .positioned i ∧
      s.store[i]? = some kv ∧ IsLeast {y | y ∈ s.keys ∧ k ≤ y} kv.1) ∧
    ((¬ ∃ y ∈ s.keys, k ≤ y) → seekGE s.keys k = .exhausted) := by
  obtain ⟨h0, h1⟩ := seekGE_spec k s.keys hs
  unfold seekGE
  by_cases hc : (s.keys.takeWhile (fun x => decide (x < k))).length < s.keys.length
  · obtain ⟨x, hx, hkx, hmin⟩ := h0 hc
    obtain ⟨kv, hkv, rfl⟩ := record_of_key s _ _ hx
    refine ⟨fun _ => ⟨_, kv, by simp [hc], hkv, ⟨List.getElem?_mem hx, hkx⟩, ?_⟩, fun hno => ?_⟩
    · intro y hy
      exact hmin y hy.1 hy.2
    · exact absurd ⟨kv.1, List.getElem?_mem hx, hkx⟩ hno
  · refine ⟨fun ⟨y, hy, hky⟩ => absurd hky (h1 hc y hy), fun _ => by simp [hc]⟩

/-- C9, amended: range seek semantics.  The match policy is fixed per call
and does not persist: on every engine and after every history, `Seek` passes
the Exact policy, `SeekLE` LessOrEqual and `SeekGE` GreaterOrEqual.  Over a
range-capable ordered key space, for every key `k` of length below 2^31,
`SeekLE(k)` leaves the cursor Positioned at the greatest key `≤ k` and
`SeekGE(k)` at the smallest key `≥ k`, or Exhausted if there is no such key.
With the keys `a`, `c`, `e`: `SeekLE("b")` positions at `a`, `SeekGE("b")` at
`c`, and `Seek("b")` yields NotFound.  (The policy codes are assumed pairwise
distinct and `UNQLITE_NOTFOUND` distinct from `UNQLITE_OK`.) -/
theorem range_seek_semantics (H : UnqliteH) (O : SpecOpen) (cr : Cursor) (s : KVState)
    (tr : List (Call × Reply)) (key : Slice)
    (hcap : O.rangeCapable = true)
    (hLE : H.UNQLITE_CURSOR_MATCH_LE ≠ H.UNQLITE_CURSOR_MATCH_EXACT)
    (hGE : H.UNQLITE_CURSOR_MATCH_GE ≠ H.UNQLITE_CURSOR_MATCH_EXACT)
    (hGL : H.UNQLITE_CURSOR_MATCH_GE ≠ H.UNQLITE_CURSOR_MATCH_LE)
    (hNF : H.UNQLITE_NOTFOUND ≠ H.UNQLITE_OK)
    (hs : s.Ordered) (hlen : key.len < 2147483648) :
    (∀ (τ : Type) (E : Engine τ) (w : World τ) (k : Slice),
      (∃ r, newCalls w (cr.Seek H E k w).2 = [(.unqlite_kv_cursor_seek cr.handle
        (keyPointer k) (C_int k.len) H.UNQLITE_CURSOR_MATCH_EXACT, r)]) ∧
      (∃ r, newCalls w (cr.SeekLE H E k w).2 = [(.unqlite_kv_cursor_seek cr.handle
        (keyPointer k) (C_int k.len) H.UNQLITE_CURSOR_MATCH_LE, r)]) ∧
      (∃ r, newCalls w (cr.SeekGE H E k w).2 = [(.unqlite_kv_cursor_seek cr.handle
        (keyPointer k) (C_int k.len) H.UNQLITE_CURSOR_MATCH_GE, r)])) ∧
    ((∃ y ∈ s.keys, y ≤ key.getD []) → ∃ i kv,
      (cr.SeekLE H (specEngine H O) key ⟨s, tr⟩).2.eng.pos = .positioned i ∧
      (cr.SeekLE H (specEngine H O) key ⟨s, tr⟩).2.eng.current = some kv ∧
      IsGreatest {y | y ∈ s.keys ∧ y ≤ key.getD []} kv.1) ∧
    ((¬ ∃ y ∈ s.keys, y ≤ key.getD []) →
      (cr.SeekLE H (specEngine H O) key ⟨s, tr⟩).2.eng.pos = .exhausted) ∧
    ((∃ y ∈ s.keys, key.getD [] ≤ y) → ∃ i kv,
      (cr.SeekGE H (specEngine H O) key ⟨s, tr⟩).2.eng.pos = .positioned i ∧
      (cr.SeekGE H (specEngine H O) key ⟨s, tr⟩).2.eng.current = some kv ∧
      IsLeast {y | y ∈ s.keys ∧ key.getD [] ≤ y} kv.1) ∧
    ((¬ ∃ y ∈ s.keys, key.getD [] ≤ y) →
      (cr.SeekGE H (specEngine H O) key ⟨s, tr⟩).2.eng.pos = .exhausted) ∧
    (cr.SeekLE H (specEngine H O) (some [98]) ⟨aceSpace, tr⟩).2.eng.current
      = some ([97], [49]) ∧
    (cr.SeekGE H (specEngine H O) (some [98]) ⟨aceSpace, tr⟩).2.eng.current
      = some ([99], [51]) ∧
    (cr.Seek H (specEngine H O) (some [98]) ⟨aceSpace, tr⟩).1
      = some (UnQLiteError.mk H.UNQLITE_NOTFOUND) := by
  have eLE := SeekLE_specEngine H O cr s tr key hcap hLE
  have eGE := SeekGE_specEngine H O cr s tr key hcap hGE hGL
  rw [sought_of_small key hlen] at eLE eGE
  obtain ⟨l1, l2⟩ := seekLE_positions s (key.getD []) hs
  obtain ⟨g1, g2⟩ := seekGE_positions s (key.getD []) hs
  have hb : ((keyPointer (some [98])).getD []).take (C_int (Slice.len (some [98]))).toNat
      = ([98] : Bytes) := by decide
  refine ⟨fun τ E w k => ⟨⟨_, newCalls_append _ _ _ rfl⟩, ⟨_, newCalls_append _ _ _ rfl⟩,
    ⟨_, newCalls_append _ _ _ rfl⟩⟩, ?_, ?_, ?_, ?_, ?_, ?_, ?_⟩
  · intro h
    obtain ⟨i, kv, hp, hkv, hg⟩ := l1 h
    exact ⟨i, kv, by rw [eLE]; exact hp, by rw [eLE]; simp [KVState.current, hp, hkv], hg⟩
  · intro h
    rw [eLE]; exact l2 h
  · intro h
    obtain ⟨i, kv, hp, hkv, hg⟩ := g1 h
    exact ⟨i, kv, by rw [eGE]; exact hp, by rw [eGE]; simp [KVState.current, hp, hkv], hg⟩
  · intro h
    rw [eGE]; exact g2 h
  · rw [SeekLE_specEngine H O cr aceSpace tr (some [98]) hcap hLE, hb]
    decide
  · rw [SeekGE_specEngine H O cr aceSpace tr (some [98]) hcap hGE hGL, hb]
    decide
  · rw [(Seek_specEngine H O cr aceSpace tr (some [98])).1, hb]
    have : seekExact aceSpace.keys [98] = .exhausted := by decide
    simp [this, statusToError, hNF]

theorem range_seek_semantics_witness :
    ∃ i kv, (liveCursor.SeekLE unqlite_h (specEngine unqlite_h rangeCapableOpen) (some [100])
        ⟨aceSpace, []⟩).2.eng.pos = .positioned i ∧
      (liveCursor.SeekLE unqlite_h (specEngine unqlite_h rangeCapableOpen) (some [100])
        ⟨aceSpace, []⟩).2.eng.current = some kv ∧
      IsGreatest {y | y ∈ aceSpace.keys ∧ y ≤ (some [100] : Slice).getD []} kv.1 :=
  (range_seek_semantics unqlite_h rangeCapableOpen liveCursor aceSpace [] (some [100])
    rfl (by decide) (by decide) (by decide) (by decide) (by decide) (by decide)).2.1
    ⟨[99], by decide, by decide⟩

theorem hugeFiveKey_length : hugeFiveKey.length = 4294967296 := by
  unfold hugeFiveKey
  exact List.length_replicate _ _

theorem hugeFiveKey_len : Slice.len (some hugeFiveKey) = 4294967296 := hugeFiveKey_length

theorem one_le_hugeFiveKey : ([1] : Bytes) ≤ hugeFiveKey := by
  unfold hugeFiveKey
  rw [show (4294967296 : Nat) = 4294967295 + 1 from rfl, List.replicate_succ]
  exact le_of_lt (List.Lex.rel (by decide))

/-- C9, counterexample: the key space holds the single key `[1]`, which is
`≤` the key made of 2^32 octets of value 5; yet `SeekLE` of that key leaves the
cursor Exhausted, because the length handed to the engine is `C.int(2^32)`,
which is 0. -/
theorem SeekLE_oversized_key_misses :
    (∃ y ∈ KVState.keys ⟨[([1], [1])], .unpositioned⟩, y ≤ hugeFiveKey) ∧
    (liveCursor.SeekLE unqlite_h (specEngine unqlite_h rangeCapableOpen)
      (some hugeFiveKey) ⟨⟨[([1], [1])], .unpositioned⟩, []⟩).2.eng.pos = .exhausted := by
  constructor
  · exact ⟨[1], by decide, one_le_hugeFiveKey⟩
  · have hc : C_int ((Slice.len (some hugeFiveKey) : Nat) : Int) = 0 := by
      rw [hugeFiveKey_len]; rfl
    rw [SeekLE_specEngine unqlite_h rangeCapableOpen liveCursor _ _ _ rfl (by decide), hc]
    simp only [Int.toNat_zero, List.take_zero]
    decide


/-- C4, the failing case: when the size-only phase reports `UNQLITE_OK` and
length 0, `Key` (resp. `Value`) does not return an empty byte sequence: it
panics on `&key[0]` (resp. `&value[0]`), index out of range. -/
theorem read_panics_on_zero_length {σ : Type} (H : UnqliteH) (E : Engine σ) (cr : Cursor)
    (w : World σ) :
    ((E w.eng (.unqlite_kv_cursor_key cr.handle none 0)).1.res = H.UNQLITE_OK →
     (E w.eng (.unqlite_kv_cursor_key cr.handle none 0)).1.n = 0 →
      (cr.Key H E w).1 = .panicked .indexOutOfRange) ∧
    ((E w.eng (.unqlite_kv_cursor_data cr.handle none 0)).1.res = H.UNQLITE_OK →
     (E w.eng (.unqlite_kv_cursor_data cr.handle none 0)).1.n = 0 →
      (cr.Value H E w).1 = .panicked .indexOutOfRange) := by
  constructor <;> intro h1 h2 <;>
    simp [Cursor.Key, Cursor.Value, twoPhaseRead, cgo, h1, h2, maxAlloc]

theorem read_panics_on_zero_length_witness :
    (liveCursor.Value unqlite_h (specEngine unqlite_h rangeCapableOpen)
      ⟨⟨[([107], [])], .positioned 0⟩, []⟩).1 = .panicked .indexOutOfRange :=
  (read_panics_on_zero_length unqlite_h (specEngine unqlite_h rangeCapableOpen) liveCursor
    ⟨⟨[([107], [])], .positioned 0⟩, []⟩).2 (by decide) (by decide)

/-- C3, the failing case: on the key space whose only key has length zero, the
ascending and the descending traversal both panic in `Key()` at the first
record (index out of range on `&key[0]`) instead of visiting the key. -/
theorem traversal_panics_on_empty_key (H : UnqliteH) (O : SpecOpen) (cr : Cursor)
    (v : Bytes) (p : Pos) (tr : List (Call × Reply)) (fuel : Nat) :
    (traverseAscending H (specEngine H O) cr (fuel + 1) ⟨⟨[([], v)], p⟩, tr⟩).1
      = .panicked .indexOutOfRange ∧
    (traverseDescending H (specEngine H O) cr (fuel + 1) ⟨⟨[([], v)], p⟩, tr⟩).1
      = .panicked .indexOutOfRange := by
  constructor <;>
    simp [traverseAscending, traverseDescending, visitLoop, Cursor.First, Cursor.Last,
      Cursor.IsValid, Cursor.Key, twoPhaseRead, cgo, specEngine, statusReply, readReply,
      KVState.current, maxAlloc]

theorem copyInto_zeros (item : Bytes) :
    copyInto (List.replicate item.length 0) (item.take item.length) = item := by
  simp [copyInto]

theorem Key_specEngine_positioned (H : UnqliteH) (O : SpecOpen) (cr : Cursor)
    (w : World KVState) (kv : Bytes × Bytes) (hc : w.eng.current = some kv)
    (hne : kv.1 ≠ []) (hmax : (kv.1.length : Int) ≤ maxAlloc) :
    (cr.Key H (specEngine H O) w).1 = .returned (some kv.1, none) ∧
    (cr.Key H (specEngine H O) w).2.eng = w.eng := by
  have hl : kv.1.length ≠ 0 := fun h => hne (List.length_eq_zero.1 h)
  have e1 : specEngine H O w.eng (.unqlite_kv_cursor_key cr.handle none 0)
      = (⟨H.UNQLITE_OK, kv.1.length, []⟩, w.eng) := by
    simp [specEngine, hc, readReply]
  have e2 : specEngine H O w.eng (.unqlite_kv_cursor_key cr.handle (some kv.1.length)
      kv.1.length) = (⟨H.UNQLITE_OK, kv.1.length, kv.1⟩, w.eng) := by
    simp [specEngine, hc, readReply]
  have hcp := copyInto_zeros kv.1
  simp only [List.take_length] at hcp
  have hn0 : ¬ ((kv.1.length : Int) < 0) := by omega
  have hn1 : ¬ (maxAlloc < (kv.1.length : Int)) := by omega
  constructor <;>
    simp [Cursor.Key, twoPhaseRead, cgo, e1, e2, hl, hcp, hn0, hn1]

theorem visitLoop_exhausted (H : UnqliteH) (O : SpecOpen) (cr : Cursor)
    (step : World KVState → GoError × World KVState) (fuel : Nat) (w : World KVState)
    (acc : List Slice) (hc : w.eng.current = none) :
    (visitLoop H (specEngine H O) cr step (fuel + 1) w acc).1 = .done acc := by
  have hv := (IsValid_specEngine H O cr w).1
  rw [hc] at hv
  simp [visitLoop, hv]

theorem visitLoop_step (H : UnqliteH) (O : SpecOpen) (cr : Cursor)
    (step : World KVState → GoError × World KVState) (fuel : Nat) (w : World KVState)
    (acc : List Slice) (kv : Bytes × Bytes) (hc : w.eng.current = some kv) (hne : kv.1 ≠ [])
    (hmax : (kv.1.length : Int) ≤ maxAlloc) :
    ∃ w2 : World KVState, w2.eng = w.eng ∧
      visitLoop H (specEngine H O) cr step (fuel + 1) w acc =
        visitLoop H (specEngine H O) cr step fuel (step w2).2 (acc ++ [some kv.1]) := by
  obtain ⟨hv, hve⟩ := IsValid_specEngine H O cr w
  rw [hc] at hv
  have hc2 : (cr.IsValid (specEngine H O) w).2.eng.current = some kv := by rw [hve]; exact hc
  obtain ⟨hk, hke⟩ := Key_specEngine_positioned H O cr _ kv hc2 hne hmax
  refine ⟨(cr.Key H (specEngine H O) (cr.IsValid (specEngine H O) w).2).2, by rw [hke, hve], ?_⟩
  rw [visitLoop]
  simp only [hv, Option.isSome_some, if_true]
  generalize hq : cr.Key H (specEngine H O) (cr.IsValid (specEngine H O) w).2 = q at hk
  obtain ⟨q1, q2⟩ := q
  simp only at hk
  subst hk
  rfl

theorem Next_specEngine (H : UnqliteH) (O : SpecOpen) (cr : Cursor) (w : World KVState)
    (i : Nat) (hp : w.eng.pos = .positioned i) :
    (cr.Next H (specEngine H O) w).2.eng.store = w.eng.store ∧
    (cr.Next H (specEngine H O) w).2.eng.pos =
      if i + 1 < w.eng.store.length then .positioned (i + 1) else .exhausted := by
  by_cases h : i + 1 < w.eng.store.length <;>
    simp [Cursor.Next, cgo, specEngine, hp, h]

theorem Prev_specEngine (H : UnqliteH) (O : SpecOpen) (cr : Cursor) (w : World KVState)
    (i : Nat) (hp : w.eng.pos = .positioned i) :
    (cr.Prev H (specEngine H O) w).2.eng.store = w.eng.store ∧
    (cr.Prev H (specEngine H O) w).2.eng.pos =
      if 0 < i ∧ i < w.eng.store.length then .positioned (i - 1) else .exhausted := by
  by_cases h : 0 < i ∧ i < w.eng.store.length <;>
    simp [Cursor.Prev, cgo, specEngine, hp, h]

theorem current_of_positioned (e : KVState) (i : Nat) (hp : e.pos = .positioned i) :
    e.current = e.store[i]? := by
  simp [KVState.current, hp]

theorem current_of_exhausted (e : KVState) (hp : e.pos = .exhausted) : e.current = none := by
  simp [KVState.current, hp]

theorem ascending_loop (H : UnqliteH) (O : SpecOpen) (cr : Cursor)
    (store : List (Bytes × Bytes))
    (hne : ∀ kv ∈ store, kv.1 ≠ [] ∧ (kv.1.length : Int) ≤ maxAlloc) :
    ∀ (m i : Nat) (w : World KVState) (acc : List Slice) (fuel : Nat),
      w.eng.store = store → w.eng.pos = .positioned i → i + m + 1 = store.length →
      m + 2 ≤ fuel →
      (visitLoop H (specEngine H O) cr (cr.Next H (specEngine H O)) fuel w acc).1 =
        .done (acc ++ (store.drop i).map (fun kv => some kv.1)) := by
  intro m
  induction m with
  | zero =>
    intro i w acc fuel hst hp hlen hf
    obtain ⟨f, rfl⟩ : ∃ f, fuel = f + 2 := ⟨fuel - 2, by omega⟩
    have hi : i < store.length := by omega
    have hcur : w.eng.current = some store[i] := by
      rw [current_of_positioned _ _ hp, List.getElem?_eq_some_iff]
      exact ⟨by rw [hst]; exact hi, by simp [hst]⟩
    obtain ⟨w2, hw2, e⟩ := visitLoop_step H O cr (cr.Next H (specEngine H O)) (f + 1) w acc _
      hcur (hne _ (List.getElem_mem _)).1 (hne _ (List.getElem_mem _)).2
    rw [e]
    obtain ⟨_, hnp⟩ := Next_specEngine H O cr w2 i (by rw [hw2]; exact hp)
    rw [hw2, hst, if_neg (by omega)] at hnp
    rw [visitLoop_exhausted H O cr _ f _ _ (current_of_exhausted _ hnp)]
    have hd : store.drop i = [store[i]] := by
      rw [List.drop_eq_getElem_cons hi, List.drop_eq_nil_of_le (by omega)]
    simp [hd]
  | succ m ih =>
    intro i w acc fuel hst hp hlen hf
    obtain ⟨f, rfl⟩ : ∃ f, fuel = f + 1 := ⟨fuel - 1, by omega⟩
    have hi : i < store.length := by omega
    have hcur : w.eng.current = some store[i] := by
      rw [current_of_positioned _ _ hp, List.getElem?_eq_some_iff]
      exact ⟨by rw [hst]; exact hi, by simp [hst]⟩
    obtain ⟨w2, hw2, e⟩ := visitLoop_step H O cr (cr.Next H (specEngine H O)) f w acc _
      hcur (hne _ (List.getElem_mem _)).1 (hne _ (List.getElem_mem _)).2
    rw [e]
    obtain ⟨hns, hnp⟩ := Next_specEngine H O cr w2 i (by rw [hw2]; exact hp)
    rw [hw2, hst] at hns
    rw [hw2, hst, if_pos (by omega)] at hnp
    rw [ih (i + 1) _ _ f hns hnp (by omega) (by omega)]
    rw [List.drop_eq_getElem_cons hi, List.map_cons, List.append_assoc]
    rfl

theorem descending_loop (H : UnqliteH) (O : SpecOpen) (cr : Cursor)
    (store : List (Bytes × Bytes))
    (hne : ∀ kv ∈ store, kv.1 ≠ [] ∧ (kv.1.length : Int) ≤ maxAlloc) :
    ∀ (i : Nat) (w : World KVState) (acc : List Slice) (fuel : Nat),
      w.eng.store = store → w.eng.pos = .positioned i → i < store.length →
      i + 2 ≤ fuel →
      (visitLoop H (specEngine H O) cr (cr.Prev H (specEngine H O)) fuel w acc).1 =
        .done (acc ++ (store.take (i + 1)).reverse.map (fun kv => some kv.1)) := by
  intro i
  induction i with
  | zero =>
    intro w acc fuel hst hp hi hf
    obtain ⟨f, rfl⟩ : ∃ f, fuel = f + 2 := ⟨fuel - 2, by omega⟩
    have hcur : w.eng.current = some store[0] := by
      rw [current_of_positioned _ _ hp, List.getElem?_eq_some_iff]
      exact ⟨by rw [hst]; exact hi, by simp [hst]⟩
    obtain ⟨w2, hw2, e⟩ := visitLoop_step H O cr (cr.Prev H (specEngine H O)) (f + 1) w acc _
      hcur (hne _ (List.getElem_mem _)).1 (hne _ (List.getElem_mem _)).2
    rw [e]
    obtain ⟨_, hnp⟩ := Prev_specEngine H O cr w2 0 (by rw [hw2]; exact hp)
    rw [if_neg (by omega)] at hnp
    rw [visitLoop_exhausted H O cr _ f _ _ (current_of_exhausted _ hnp)]
    have hd : store.take 1 = [store[0]] := by
      cases store with
      | nil => simp at hi
      | cons a t => rfl
    simp [hd]
  | succ i ih =>
    intro w acc fuel hst hp hi hf
    obtain ⟨f, rfl⟩ : ∃ f, fuel = f + 1 := ⟨fuel - 1, by omega⟩
    have hcur : w.eng.current = some store[i + 1] := by
      rw [current_of_positioned _ _ hp, List.getElem?_eq_some_iff]
      exact ⟨by rw [hst]; exact hi, by simp [hst]⟩
    obtain ⟨w2, hw2, e⟩ := visitLoop_step H O cr (cr.Prev H (specEngine H O)) f w acc _
      hcur (hne _ (List.getElem_mem _)).1 (hne _ (List.getElem_mem _)).2
    rw [e]
    obtain ⟨hns, hnp⟩ := Prev_specEngine H O cr w2 (i + 1) (by rw [hw2]; exact hp)
    rw [hw2, hst] at hns
    rw [hw2, hst, if_pos ⟨by omega, hi⟩] at hnp
    have ht : store.take (i + 1 + 1) = store.take (i + 1) ++ [store[i + 1]] := by
      rw [List.take_succ, List.getElem?_eq_getElem hi]
      rfl
    rw [ih _ _ f hns hnp (by omega) (by omega), ht, List.reverse_append, List.map_append,
      List.append_assoc]
    rfl

theorem First_specEngine (H : UnqliteH) (O : SpecOpen) (cr : Cursor) (w : World KVState) :
    (cr.First H (specEngine H O) w).2.eng.store = w.eng.store ∧
    (cr.First H (specEngine H O) w).2.eng.pos =
      if w.eng.store.length = 0 then .exhausted else .positioned 0 := by
  by_cases h : w.eng.store.length = 0 <;> simp [Cursor.First, cgo, specEngine, h]

theorem Last_specEngine (H : UnqliteH) (O : SpecOpen) (cr : Cursor) (w : World KVState) :
    (cr.Last H (specEngine H O) w).2.eng.store = w.eng.store ∧
    (cr.Last H (specEngine H O) w).2.eng.pos =
      if w.eng.store.length = 0 then .exhausted
      else .positioned (w.eng.store.length - 1) := by
  by_cases h : w.eng.store.length = 0 <;> simp [Cursor.Last, cgo, specEngine, h]

/-- The traversal symmetry law holds on every ordered key space that has no
zero-length key (and no key longer than `make` accepts): with enough fuel for one `IsValid` test per key and a last
one, `First`/`Next` visits the keys in storage order, which is strictly
ascending (so each key is visited once), and `Last`/`Prev` visits them in the
reverse order. -/
theorem traversal_symmetry_of_nonempty_keys (H : UnqliteH) (O : SpecOpen) (cr : Cursor)
    (s : KVState) (tr : List (Call × Reply)) (fuel : Nat)
    (hs : s.Ordered) (hne : ∀ k ∈ s.keys, k ≠ [] ∧ (k.length : Int) ≤ maxAlloc)
    (hf : s.store.length + 1 ≤ fuel) :
    (traverseAscending H (specEngine H O) cr fuel ⟨s, tr⟩).1 = .done (s.keys.map some) ∧
    (traverseDescending H (specEngine H O) cr fuel ⟨s, tr⟩).1
      = .done ((s.keys.map some).reverse) ∧
    s.keys.Sorted (· < ·) ∧ s.keys.Nodup := by
  have hne2 : ∀ kv ∈ s.store, kv.1 ≠ [] ∧ (kv.1.length : Int) ≤ maxAlloc :=
    fun kv hkv => hne kv.1 (List.mem_map_of_mem Prod.fst hkv)
  obtain ⟨hFs, hFp⟩ := First_specEngine H O cr ⟨s, tr⟩
  obtain ⟨hLs, hLp⟩ := Last_specEngine H O cr ⟨s, tr⟩
  have hmap : (s.store.map (fun kv => some kv.1) : List Slice) = s.keys.map some := by
    simp [KVState.keys, List.map_map, Function.comp_def]
  refine ⟨?_, ?_, hs, hs.nodup⟩
  · unfold traverseAscending
    by_cases h0 : s.store.length = 0
    · obtain ⟨f, rfl⟩ : ∃ f, fuel = f + 1 := ⟨fuel - 1, by omega⟩
      rw [if_pos h0] at hFp
      rw [visitLoop_exhausted H O cr _ f _ _ (current_of_exhausted _ hFp)]
      simp [KVState.keys, List.length_eq_zero.1 h0]
    · rw [if_neg h0] at hFp
      rw [ascending_loop H O cr s.store hne2 (s.store.length - 1) 0 _ [] fuel
        hFs hFp (by omega) (by omega), List.drop_zero, List.nil_append, hmap]
  · unfold traverseDescending
    by_cases h0 : s.store.length = 0
    · obtain ⟨f, rfl⟩ : ∃ f, fuel = f + 1 := ⟨fuel - 1, by omega⟩
      rw [if_pos h0] at hLp
      rw [visitLoop_exhausted H O cr _ f _ _ (current_of_exhausted _ hLp)]
      simp [KVState.keys, List.length_eq_zero.1 h0]
    · rw [if_neg h0] at hLp
      have hlen : s.store.length - 1 + 1 = s.store.length := by omega
      rw [descending_loop H O cr s.store hne2 (s.store.length - 1) _ [] fuel
        hLs hLp (by omega) (by omega), hlen, List.take_length, List.nil_append,
        List.map_reverse, hmap]

/-- On a report of a positive length that `make` accepts, with both phases
reporting success, the two-phase read returns without error a non-nil slice of
exactly the reported length, whatever the copy phase writes back. -/
theorem twoPhaseRead_length_of_positive {σ : Type} (H : UnqliteH) (E : Engine σ)
    (prim : Option Nat → Int → Call) (w : World σ)
    (hc : CopyReached H E prim w) (h2 : (copyReply E prim w).res = H.UNQLITE_OK) :
    ∃ bs : Bytes, (twoPhaseRead H E prim w).1 = .returned (some bs, none) ∧
      (bs.length : Int) = (sizeReply E prim w).n := by
  refine ⟨_, by rw [twoPhaseRead_copy_reached H E prim w hc, if_neg (not_not.2 h2)], ?_⟩
  obtain ⟨_, hpos, _⟩ := hc
  simp only [copyInto, List.length_append, List.length_take, List.length_drop,
    List.length_replicate]
  omega

theorem Close_release_atomic_witness :
    (liveCursor.Close unqlite_h (fun (s : Unit) _ => (statusReply (-1), s)) ⟨(), []⟩).1
      = .returned (some (UnQLiteError.mk (-1))) ∧
    (liveCursor.Close unqlite_h (fun (s : Unit) _ => (statusReply (-1), s)) ⟨(), []⟩).2.1
      = liveCursor :=
  ⟨((Close_release_atomic unqlite_h (fun (s : Unit) _ => (statusReply (-1), s)) liveCursor
      ⟨some 1⟩ ⟨(), []⟩ rfl (by decide) (by decide)).2.2.1 (by decide)).1,
   ((Close_release_atomic unqlite_h (fun (s : Unit) _ => (statusReply (-1), s)) liveCursor
      ⟨some 1⟩ ⟨(), []⟩ rfl (by decide) (by decide)).2.2.1 (by decide)).2.1⟩

theorem seek_key_marshalling_witness :
    PropagatesVerbatim unqlite_h (fun (s : Unit) _ => (statusReply (-6), s)) ⟨(), []⟩
      (.unqlite_kv_cursor_seek (some 2) none 0 1)
      (liveCursor.Seek unqlite_h (fun (s : Unit) _ => (statusReply (-6), s)) (some [])
        ⟨(), []⟩) :=
  ((seek_key_marshalling unqlite_h (fun (s : Unit) _ => (statusReply (-6), s)) liveCursor
    (some []) ⟨(), []⟩).1 rfl).1

end Unqlitego
